import Mathlib

/-!
Verification development for the indexed algebraic-modeling and standard-form
compilation engine of the repository (class `OptimizationProblem` and helper
`get_index` in `src/mesmo/utils.py`).

The embedding is a shallow one: pandas index tables become lists of rows
(association lists from column name to key value), numpy arrays become lists of
rationals, the accumulator dictionaries (`a_dict`, `b_dict`, `c_dict`) become
lists of entries, and the Python methods become Lean functions over an explicit
`OptState`, returning `Except String _` where the source can raise.  Numeric
values are rationals: the claims under study are structural and exact-linear-
algebra statements, not floating-point ones.
-/

namespace Mesmo

/-- A key value in an index table: the source uses heterogeneous key columns
(strings, timestamps, integers); we model them as tagged strings / naturals. -/
inductive KeyVal where
  | str (s : String)
  | num (n : Nat)
deriving DecidableEq

/-- A row of the `variables` / `constraints` index table: an association list
from column name to key value (the `name` column included). -/
abbrev Row := List (String × KeyVal)

/-- A keyword-arguments query as passed to `get_index`: level name to the list
of admissible values (the source normalizes scalars, ranges, arrays to lists). -/
abbrev Query := List (String × List KeyVal)

/-- Membership of a key value in a value list (`pandas.Series.isin`). -/
def keyMem (v : KeyVal) (vs : List KeyVal) : Bool :=
  vs.any (fun w => decide (w = v))

/-- One level/value-list constraint of `get_index`: the row's value at the
level must be among the given values; a row without the level (NaN cell in the
pandas table) never matches `isin`. -/
def rowMatchesOne (row : Row) (level : String) (vs : List KeyVal) : Bool :=
  match row.lookup level with
  | some v => keyMem v vs
  | none => false

/-- Conjunction of all level constraints (logical AND across keys). -/
def rowMatchesAll (row : Row) (q : Query) : Bool :=
  q.all (fun lv => rowMatchesOne row lv.1 lv.2)

/-- `get_index`: integer positions of the rows matching all level constraints
(`np.flatnonzero` of the accumulated mask). -/
def getIndexList (rows : List Row) (q : Query) : List Nat :=
  (List.range rows.length).filter (fun i => rowMatchesAll (rows.getD i []) q)

/-- Dense vector (1-D numpy array). -/
abbrev Vec := List ℚ

/-- Dense matrix (2-D numpy array), a list of rows. -/
abbrev Mat := List (List ℚ)

/-- Number of rows (`np.shape(m)[0]`). -/
def Mat.rowCount (m : Mat) : Nat := m.length

/-- Number of columns (`np.shape(m)[1]`, for a rectangular matrix). -/
def Mat.colCount (m : Mat) : Nat := (m.headD []).length

/-- Entry access with zero default outside the stored rectangle. -/
def Mat.entry (m : Mat) (i j : Nat) : ℚ := (m.getD i []).getD j 0

/-- Matrix from an entry function. -/
def matOfFn (r c : Nat) (f : Nat → Nat → ℚ) : Mat :=
  (List.range r).map (fun i => (List.range c).map (fun j => f i j))

/-- `q * sp.eye(n)`: scalar times identity. -/
def eyeScaled (q : ℚ) (n : Nat) : Mat :=
  matOfFn n n (fun i j => if i = j then q else 0)

/-- `sp.block_diag([m] * k)`: the coefficient block repeated block-diagonally. -/
def blockDiagRep (m : Mat) (k : Nat) : Mat :=
  matOfFn (k * m.rowCount) (k * m.colCount)
    (fun i j => if i / m.rowCount = j / m.colCount then m.entry (i % m.rowCount) (j % m.colCount) else 0)

/-- Scale every entry of a matrix. -/
def matScale (q : ℚ) (m : Mat) : Mat := m.map (fun row => row.map (fun x => q * x))

/-- Scale every entry of a vector. -/
def vecScale (q : ℚ) (v : Vec) : Vec := v.map (fun x => q * x)

/-- `np.concatenate([v] * k, axis=0)` for a flat array. -/
def joinRep (v : List α) (k : Nat) : List α := (List.replicate k v).flatten

/-- A parameter value stored in the parameter store: scalar, dense/flat array
or (sparse) matrix. -/
inductive PVal where
  | scalar (q : ℚ)
  | vec (v : Vec)
  | mat (m : Mat)
deriving DecidableEq

/-- `np.shape` of a parameter value. -/
def PVal.shape : PVal → List Nat
  | .scalar _ => []
  | .vec v => [v.length]
  | .mat m => [m.rowCount, m.colCount]

/-- A coefficient argument in a constraint / objective term: a numeric literal
or a parameter name string (deferred indirection). -/
inductive Coef where
  | scalar (q : ℚ)
  | vec (v : Vec)
  | mat (m : Mat)
  | param (name : String)
deriving DecidableEq

/-- An `a_dict` value: a resolved literal block, or the deferred
`(factor, parameter_name, broadcast_len)` tuple. -/
inductive AVal where
  | lit (m : Mat)
  | par (factor : ℚ) (pname : String) (blen : Nat)
deriving DecidableEq

/-- One `a_dict` entry: `(constraint_index, variable_index) -> value`. -/
structure AEntry where
  ci : List Nat
  vi : List Nat
  val : AVal
deriving DecidableEq

/-- A `b_dict` value: literal vector or deferred parameter tuple. -/
inductive BVal where
  | lit (v : Vec)
  | par (factor : ℚ) (pname : String) (blen : Nat)
deriving DecidableEq

/-- One `b_dict` entry: `constraint_index -> value`. -/
structure BEntry where
  ci : List Nat
  val : BVal
deriving DecidableEq

/-- A `c_dict` value: literal row vector (flattened) or deferred
`(parameter_name, broadcast_len)` tuple. -/
inductive CVal where
  | lit (v : Vec)
  | par (pname : String) (blen : Nat)
deriving DecidableEq

/-- One `c_dict` entry: `variable_index -> value`. -/
structure CEntry where
  vi : List Nat
  val : CVal
deriving DecidableEq

/-- The state of an `OptimizationProblem` object (the fields the claims under
study touch; `q_dict` / `d_dict` are not needed by any claim). -/
structure OptState where
  variablesList : List Row
  constraints : List (Nat × Row)
  constraintsLen : Nat
  parameters : List (String × PVal)
  aDict : List AEntry
  bDict : List BEntry
  cDict : List CEntry
deriving DecidableEq

/-- The freshly instantiated problem (`__init__`). -/
def emptyProblem : OptState :=
  { variablesList := [], constraints := [], constraintsLen := 0, parameters := [],
    aDict := [], bDict := [], cDict := [] }

/-- Overwrite / insert an association-list binding (dict assignment). -/
def setAssoc (ps : List (String × PVal)) (n : String) (v : PVal) : List (String × PVal) :=
  if (ps.lookup n).isSome then ps.map (fun kv => if kv.1 = n then (n, v) else kv)
  else ps ++ [(n, v)]

/-- `define_parameter(name, value)`.  The source contains a shape-validation
branch that constructs `ValueError(f"Mismatch of redefined parameter: ...")`
but does not `raise` it, so the function always returns normally and always
overwrites the stored value; the embedding is therefore total. -/
def defineParameter (s : OptState) (name : String) (value : PVal) : OptState :=
  { s with parameters := setAssoc s.parameters name value }

/-- Cartesian product of the key sets (`itertools.product`), first key
outermost, producing the trailing key columns of each new row. -/
def cartProd : List (String × List KeyVal) → List (List (String × KeyVal))
  | [] => [[]]
  | (k, vs) :: rest => vs.flatMap (fun v => (cartProd rest).map (fun tail => (k, v) :: tail))

/-- The new rows generated by one `define_variable(name, **keys)` call. -/
def buildVarRows (name : String) (keys : List (String × List KeyVal)) : List Row :=
  (cartProd keys).map (fun tail => ("name", KeyVal.str name) :: tail)

/-- Keep the first occurrence of each row, dropping later duplicates
(`pandas.DataFrame.drop_duplicates`). -/
def dedupFirst {α : Type} [DecidableEq α] : List α → List α
  | [] => []
  | x :: xs => x :: dedupFirst (xs.filter (fun y => y ≠ x))
termination_by l => l.length
decreasing_by
  simp only [List.length_cons]
  exact Nat.lt_succ_of_le (List.length_filter_le _ _)

/-- `define_variable(name, **keys)`: concatenate the new rows and drop
duplicates, preserving order of first insertion. -/
def defineVariable (s : OptState) (name : String) (keys : List (String × List KeyVal)) :
    OptState :=
  { s with variablesList := dedupFirst (s.variablesList ++ buildVarRows name keys) }

/-- Look up a parameter at compile time (`self.parameters[name]`); states built
through the declaration API only store references to existing parameters, so
the default branch is unreachable for them. -/
def lookupParam (ps : List (String × PVal)) (n : String) : PVal :=
  (ps.lookup n).getD (.scalar 0)

/-- Expansion of a coefficient for the A matrix (shared by declaration-time
casting and `get_a_matrix` re-resolution): a flat array becomes a one-row
matrix, a scalar becomes a scaled identity of the variable-slice size, and a
matrix is tiled block-diagonally when the broadcast length exceeds one. -/
def expandA (v : PVal) (nVi blen : Nat) : Mat :=
  match v with
  | .scalar q => eyeScaled q nVi
  | .vec w => if blen > 1 then blockDiagRep [w] blen else [w]
  | .mat m => if blen > 1 then blockDiagRep m blen else m

/-- Expansion of a parameter value for the b vector inside `get_b_vector`:
a scalar is cast to a constant vector of the constraint-slice size, an array is
concatenated along the broadcast dimension, a column matrix is flattened
(`values.ravel()`). -/
def expandBParam (v : PVal) (nCi blen : Nat) : Vec :=
  match v with
  | .scalar q => List.replicate nCi q
  | .vec w => if blen > 1 then joinRep w blen else w
  | .mat m => (if blen > 1 then joinRep m blen else m).flatten

/-- Expansion of a parameter value for the c vector inside `get_c_vector`. -/
def expandCParam (v : PVal) (nVi blen : Nat) : Vec :=
  match v with
  | .scalar q => List.replicate nVi q
  | .vec w => if blen > 1 then joinRep w blen else w
  | .mat m => (if blen > 1 then m.map (fun row => joinRep row blen) else m).flatten

/-- Resolve an `a_dict` value against the current parameter store
(`get_a_matrix`, parameter branch). -/
def resolveA (ps : List (String × PVal)) (nVi : Nat) : AVal → Mat
  | .lit m => m
  | .par factor pname blen => matScale factor (expandA (lookupParam ps pname) nVi blen)

/-- Resolve a `b_dict` value against the current parameter store. -/
def resolveB (ps : List (String × PVal)) (nCi : Nat) : BVal → Vec
  | .lit v => v
  | .par factor pname blen => vecScale factor (expandBParam (lookupParam ps pname) nCi blen)

/-- Resolve a `c_dict` value against the current parameter store. -/
def resolveC (ps : List (String × PVal)) (nVi : Nat) : CVal → Vec
  | .lit v => v
  | .par pname blen => expandCParam (lookupParam ps pname) nVi blen

/-- Contribution of one `a_dict` entry to the A-matrix entry `(i, j)`:
the sparse `coo_matrix` constructor sums, for every position `(r, c)` of the
block, its value into global position `(ci[r], vi[c])`. -/
def aContrib (ps : List (String × PVal)) (i j : Nat) (e : AEntry) : ℚ :=
  let m := resolveA ps e.vi.length e.val
  ∑ r ∈ Finset.range e.ci.length, ∑ c ∈ Finset.range e.vi.length,
    if e.ci.getD r 0 = i ∧ e.vi.getD c 0 = j then m.entry r c else 0

/-- `get_a_matrix` as an entry function: the sum of all collected
contributions, re-resolving parameter indirections from the current store. -/
def getAMatrix (s : OptState) (i j : Nat) : ℚ :=
  (s.aDict.map (aContrib s.parameters i j)).sum

/-- Contribution of one `b_dict` entry to the b-vector entry `i`. -/
def bContrib (ps : List (String × PVal)) (i : Nat) (e : BEntry) : ℚ :=
  let v := resolveB ps e.ci.length e.val
  ∑ r ∈ Finset.range e.ci.length, if e.ci.getD r 0 = i then v.getD r 0 else 0

/-- `get_b_vector` as an entry function. -/
def getBVector (s : OptState) (i : Nat) : ℚ :=
  (s.bDict.map (bContrib s.parameters i)).sum

/-- Contribution of one `c_dict` entry to the c-vector entry `j`. -/
def cContrib (ps : List (String × PVal)) (j : Nat) (e : CEntry) : ℚ :=
  let v := resolveC ps e.vi.length e.val
  ∑ c ∈ Finset.range e.vi.length, if e.vi.getD c 0 = j then v.getD c 0 else 0

/-- `get_c_vector` as an entry function. -/
def getCVector (s : OptState) (j : Nat) : ℚ :=
  (s.cDict.map (cContrib s.parameters j)).sum

/-- `range(start, start + n)` used for fresh constraint row slots. -/
def rangeFrom (start n : Nat) : List Nat := (List.range n).map (fun k => start + k)

/-- A variable term of `define_constraint_low_level`:
`(factor, value, keys)` with the left/right sign already folded into `factor`. -/
structure VarTerm where
  factor : ℚ
  value : Coef
  keys : Query
deriving DecidableEq

/-- A constant term of `define_constraint_low_level`: the keys dictionary is
optional (`('constant', value)` tuples carry none). -/
structure ConstTerm where
  factor : ℚ
  value : Coef
  keys : Option Query
deriving DecidableEq

/-- Broadcast dimension length for a variable term: the product of the lengths
of the key sets named by the broadcast argument; a broadcast key missing from
the term's keys raises. -/
def broadcastLenVar (bc : Option (List String)) (q : Query) : Except String Nat :=
  match bc with
  | none => .ok 1
  | some bs =>
    bs.foldlM (fun acc b =>
      match q.lookup b with
      | some vs => .ok (acc * vs.length)
      | none => .error "Invalid broadcast dimension") 1

/-- Broadcast dimension length for a constant term: broadcast keys missing from
the constant's keys are silently skipped, and a constant without keys gets
length one. -/
def broadcastLenConst (bc : Option (List String)) (q? : Option Query) : Nat :=
  match bc, q? with
  | some bs, some q =>
    bs.foldl (fun acc b => match q.lookup b with | some vs => acc * vs.length | none => acc) 1
  | _, _ => 1

/-- String coefficient values are interpreted as parameter names and resolved
against the store (raising a lookup error when undefined); numeric literals
pass through with no parameter name attached. -/
def resolveCoef (ps : List (String × PVal)) : Coef → Except String (Option String × PVal)
  | .scalar q => .ok (none, .scalar q)
  | .vec v => .ok (none, .vec v)
  | .mat m => .ok (none, .mat m)
  | .param p =>
    match ps.lookup p with
    | some v => .ok (some p, v)
    | none => .error "KeyError: undefined parameter"

/-- Processing of one variable term inside `define_constraint_low_level`
(inequality branch).  Note: the source's skip-empty-key-values loop uses
`continue` inside the inner loop over key values, which makes it a no-op, so
the embedding proceeds straight to `get_index` with
`raise_empty_index_error=True`. -/
def processVar (s : OptState) (opf : ℚ) (bc : Option (List String))
    (ci? : Option (List Nat)) (t : VarTerm) : Except String (List Nat × AEntry) :=
  let vi := getIndexList s.variablesList t.keys
  if vi.isEmpty then .error "Empty index returned" else
  match broadcastLenVar bc t.keys with
  | .error e => .error e
  | .ok blen =>
    match resolveCoef s.parameters t.value with
    | .error e => .error e
    | .ok (pname, v) =>
      let m := expandA v vi.length blen
      let ci := ci?.getD (rangeFrom s.constraintsLen m.rowCount)
      if (m.rowCount, m.colCount) = (ci.length, vi.length) then
        match pname with
        | none => .ok (ci, ⟨ci, vi, .lit (matScale (opf * t.factor) m)⟩)
        | some p => .ok (ci, ⟨ci, vi, .par (opf * t.factor) p blen⟩)
      else .error "Dimension mismatch at variable"

/-- Fold of `processVar` over the variable terms, threading the constraint
index determined by the first term. -/
def processVars (s : OptState) (opf : ℚ) (bc : Option (List String)) :
    Option (List Nat) → List VarTerm → Except String (Option (List Nat) × List AEntry)
  | ci?, [] => .ok (ci?, [])
  | ci?, t :: ts =>
    match processVar s opf bc ci? t with
    | .error e => .error e
    | .ok (ci, e) =>
      match processVars s opf bc (some ci) ts with
      | .error e2 => .error e2
      | .ok (ciOut, es) => .ok (ciOut, e :: es)

/-- Declaration-time casting of a constant value: a scalar is cast to a vector
of the constraint-slice size (crashing when no constraint index exists yet,
which cannot happen because variables are processed first and must be
non-empty), an array is concatenated along the broadcast dimension, and a
multi-column matrix is rejected (must be a column vector). -/
def expandConst (v : PVal) (ci? : Option (List Nat)) (blen : Nat) : Except String Vec :=
  match v with
  | .scalar q =>
    match ci? with
    | some ci => .ok (List.replicate ci.length q)
    | none => .error "TypeError: constraint index not yet defined"
  | .vec w => .ok (if blen > 1 then joinRep w blen else w)
  | .mat m =>
    let m2 := if blen > 1 then joinRep m blen else m
    if Mat.colCount m2 > 1 then .error "Constant must be column vector"
    else .ok m2.flatten

/-- Processing of one constant term inside `define_constraint_low_level`
(inequality branch). -/
def processConst (s : OptState) (opf : ℚ) (bc : Option (List String))
    (ci? : Option (List Nat)) (t : ConstTerm) : Except String (List Nat × BEntry) :=
  match resolveCoef s.parameters t.value with
  | .error e => .error e
  | .ok (pname, v) =>
    let blen := broadcastLenConst bc t.keys
    match expandConst v ci? blen with
    | .error e => .error e
    | .ok w =>
      let ci := ci?.getD (rangeFrom s.constraintsLen w.length)
      if w.length = ci.length then
        match pname with
        | none => .ok (ci, ⟨ci, .lit (vecScale (opf * t.factor) w)⟩)
        | some p => .ok (ci, ⟨ci, .par (opf * t.factor) p blen⟩)
      else .error "Dimension mismatch at constant"

/-- Fold of `processConst` over the constant terms. -/
def processConsts (s : OptState) (opf : ℚ) (bc : Option (List String)) :
    Option (List Nat) → List ConstTerm → Except String (Option (List Nat) × List BEntry)
  | ci?, [] => .ok (ci?, [])
  | ci?, t :: ts =>
    match processConst s opf bc ci? t with
    | .error e => .error e
    | .ok (ci, e) =>
      match processConsts s opf bc (some ci) ts with
      | .error e2 => .error e2
      | .ok (ciOut, es) => .ok (ciOut, e :: es)

/-- Overwrite / insert a binding in a keys dictionary (Python dict update,
preserving insertion order, appending a fresh key at the end). -/
def setKey (q : Query) (k : String) (v : List KeyVal) : Query :=
  if (q.lookup k).isSome then q.map (fun kv => if kv.1 = k then (k, v) else kv)
  else q ++ [(k, v)]

/-- The constraint-type fixup before the constraint rows are built: a
`constraint_type` of `==>=` / `==<=` set by the equality fan-out is kept, any
other (or missing) value is replaced by the operator. -/
def setKeyCT (q : Query) (op : String) : Query :=
  match q.lookup "constraint_type" with
  | some vs =>
    if vs = [KeyVal.str "==>="] ∨ vs = [KeyVal.str "==<="] then q
    else setKey q "constraint_type" [KeyVal.str op]
  | none => setKey q "constraint_type" [KeyVal.str op]

/-- Inequality branch of `define_constraint_low_level` (`operator` of `<=` /
`>=`; `geq` inverts the signs via `operator_factor = -1`). -/
def defineIneq (s : OptState) (vars : List VarTerm) (geq : Bool)
    (consts : List ConstTerm) (keys? : Option Query) (bc : Option (List String)) :
    Except String OptState :=
  let opf : ℚ := if geq then -1 else 1
  match processVars s opf bc none vars with
  | .error e => .error e
  | .ok (ci?, aEntries) =>
    match processConsts s opf bc ci? consts with
    | .error e => .error e
    | .ok (ciOut?, bEntries) =>
      match ciOut? with
      | none => .error "TypeError: constraint index never defined"
      | some ci =>
        match keys? with
        | none =>
          .ok { s with aDict := s.aDict ++ aEntries, bDict := s.bDict ++ bEntries,
                       constraintsLen := s.constraintsLen + ci.length }
        | some ks =>
          let rows := cartProd (setKeyCT ks (if geq then ">=" else "<="))
          if rows.length = ci.length then
            .ok { s with aDict := s.aDict ++ aEntries, bDict := s.bDict ++ bEntries,
                         constraints := s.constraints ++ ci.zip rows,
                         constraintsLen := s.constraintsLen + ci.length }
          else .error "Constraint key set dimension does not align"

/-- `define_constraint_low_level`: an equality constraint fans out into the
upper (`==>=`, declared via the `>=` path) and lower (`==<=`, via `<=`)
inequalities; the `raise`-less `ValueError` of the invalid-operator branch in
the source means an unknown operator returns the state unchanged. -/
def defineConstraintLowLevel (s : OptState) (vars : List VarTerm) (op : String)
    (consts : List ConstTerm) (keys? : Option Query) (bc : Option (List String)) :
    Except String OptState :=
  if vars.isEmpty then .error "Cannot define constraint without variables" else
  if (match keys? with | some ks => (ks.lookup "name").isNone | none => false) then
    .error "name key is required in constraint keys dictionary" else
  if op = "==" then
    match defineIneq s vars true consts
        (keys?.map (fun ks => setKey ks "constraint_type" [KeyVal.str "==>="])) bc with
    | .error e => .error e
    | .ok s1 =>
      defineIneq s1 vars false consts
        (keys?.map (fun ks => setKey ks "constraint_type" [KeyVal.str "==<="])) bc
  else if op = ">=" then defineIneq s vars true consts keys? bc
  else if op = "<=" then defineIneq s vars false consts keys? bc
  else .ok s

/-- A `define_constraint` element: a tagged tuple (variable / constant term)
or a bare string (operator). -/
inductive CElem where
  | tup (etype : String) (value : Coef) (keys : Option Query)
  | strE (sval : String)
deriving DecidableEq

/-- The element-aggregation loop of `define_constraint`.  The source's checks
for an operator in first / last position and for multiple operators construct
`ValueError`s without raising them, so scanning continues: a later operator
token overwrites the previous one and flips the side to `right` again. -/
def scanElems : List CElem → String → Option String → List VarTerm → List ConstTerm →
    Except String (List VarTerm × Option String × List ConstTerm)
  | [], _, op?, vs, cs => .ok (vs, op?, cs)
  | .tup etype value keys? :: rest, side, op?, vs, cs =>
    if etype = "variable" ∨ etype = "var" ∨ etype = "v" then
      match keys? with
      | none => .error "Missing keys for variable"
      | some ks =>
        scanElems rest side op? (vs ++ [⟨if side = "right" then -1 else 1, value, ks⟩]) cs
    else if etype = "constant" ∨ etype = "con" ∨ etype = "c" then
      scanElems rest side op? vs (cs ++ [⟨if side = "left" then -1 else 1, value, keys?⟩])
    else .error "Invalid constraint element type"
  | .strE o :: rest, _side, _op?, vs, cs =>
    if o = "==" ∨ o = "<=" ∨ o = ">=" then scanElems rest "right" (some o) vs cs
    else .error "Invalid constraint element"

/-- `define_constraint(*elements, **kwargs)`. -/
def defineConstraint (s : OptState) (elems : List CElem) (keys? : Option Query)
    (bc : Option (List String)) : Except String OptState :=
  match scanElems elems "left" none [] [] with
  | .error e => .error e
  | .ok (vs, op?, cs) =>
    match op? with
    | none => .error "Cannot define constraint without operator"
    | some op => defineConstraintLowLevel s vs op cs keys? bc

/-- Iterate a state-transforming declaration `n` times (used to compare a
broadcast declaration with `n` explicit per-timestep declarations). -/
def declareSteps (s : OptState) (f : Nat → OptState → Except String OptState) :
    Nat → Except String OptState
  | 0 => .ok s
  | n + 1 =>
    match declareSteps s f n with
    | .error e => .error e
    | .ok s2 => f n s2

/-- A variable term of `define_objective_low_level` (linear part):
`(value, keys)`. -/
structure ObjVarTerm where
  value : Coef
  keys : Query
deriving DecidableEq

/-- Declaration-time casting of an objective factor: a scalar becomes a row of
ones times the scalar, an array is tiled along the broadcast dimension
(`np.concatenate(..., axis=1)`); a flat array is kept as a single row for the
subsequent shape checks (`np.shape(...)[0]` of a 1-D array is its length,
compared against the variable-slice size exactly as the single row's width). -/
def expandCObjDecl (v : PVal) (nVi blen : Nat) : Mat :=
  match v with
  | .scalar q => [List.replicate nVi q]
  | .vec w => if blen > 1 then [joinRep w blen] else [w]
  | .mat m => if blen > 1 then m.map (fun row => joinRep row blen) else m

/-- Processing of one variable term inside `define_objective_low_level`.
As in `processVar`, the source's skip-empty-key-values loop is a no-op
(`continue` binds to the inner loop), so the embedding proceeds straight to
`get_index` with `raise_empty_index_error=True`. -/
def processObjVar (s : OptState) (bc : Option (List String)) (t : ObjVarTerm) :
    Except String CEntry :=
  let vi := getIndexList s.variablesList t.keys
  if vi.isEmpty then .error "Empty index returned" else
  match broadcastLenVar bc t.keys with
  | .error e => .error e
  | .ok blen =>
    match resolveCoef s.parameters t.value with
    | .error e => .error e
    | .ok (pname, v) =>
      let m := expandCObjDecl v vi.length blen
      if m.rowCount > 1 then .error "Objective factor must be row vector"
      else if Mat.colCount m ≠ vi.length then
        .error "Objective factor dimension mismatch at variable"
      else
        match pname with
        | none => .ok ⟨vi, .lit m.flatten⟩
        | some p => .ok ⟨vi, .par p blen⟩

/-- The linear-variable part of `define_objective_low_level`: every processed
term appends one `c_dict` entry. -/
def defineObjectiveVars (s : OptState) (bc : Option (List String)) :
    List ObjVarTerm → Except String OptState
  | [] => .ok s
  | t :: ts =>
    match processObjVar s bc t with
    | .error e => .error e
    | .ok e =>
      match defineObjectiveVars { s with cDict := s.cDict ++ [e] } bc ts with
      | .error e2 => .error e2
      | .ok s2 => .ok s2

/-- Substring test (`pandas.Series.str.contains`). -/
def strContains (hay pat : String) : Bool := decide (pat.toList <:+: hay.toList)

/-- The positional rows of the constraints table. -/
def conRows (s : OptState) : List Row := s.constraints.map (fun pr => pr.2)

/-- `self.constraints.index[get_index(self.constraints, **q)]`: the row slots
of the constraints matching the query, in table order. -/
def conSlots (s : OptState) (q : Query) : List Nat :=
  (getIndexList (conRows s) q).map (fun p => (s.constraints.getD p (0, [])).1)

/-- `self.constraints.loc[name == ..., 'constraint_type']`: the constraint
types occurring for a name (the source deduplicates with `.unique()`, which
does not change any of the `.str.contains(...).any()` tests taken on it). -/
def typesOfName (s : OptState) (name : String) : List String :=
  ((conRows s).filter
      (fun row => decide (row.lookup "name" = some (KeyVal.str name)))).filterMap
    (fun row => match row.lookup "constraint_type" with | some (.str t) => some t | _ => none)

/-- `get_duals` for one constraint name: an originally-equality constraint
(any type containing `==`) reports `0 - mu[==>= slots] - mu[==<= slots]`
elementwise; otherwise a pure `>=` (checked first) or `<=` constraint reports
`0 - mu[slots]`.  Returns `none` when no branch matches (no rows of a
recognized type). -/
def getDualsFor (s : OptState) (mu : Nat → ℚ) (name : String) : Option (List ℚ) :=
  let types := typesOfName s name
  if types.any (fun t => strContains t "==") then
    some (List.zipWith (fun i j => 0 - mu i - mu j)
      (conSlots s [("name", [KeyVal.str name]), ("constraint_type", [KeyVal.str "==>="])])
      (conSlots s [("name", [KeyVal.str name]), ("constraint_type", [KeyVal.str "==<="])]))
  else if types.any (fun t => strContains t ">=") then
    some ((conSlots s [("name", [KeyVal.str name]),
      ("constraint_type", [KeyVal.str ">="])]).map (fun i => 0 - mu i))
  else if types.any (fun t => strContains t "<=") then
    some ((conSlots s [("name", [KeyVal.str name]),
      ("constraint_type", [KeyVal.str "<="])]).map (fun i => 0 - mu i))
  else none

/-- Gurobi termination statuses distinguished by `solve_gurobi`. -/
inductive GurobiStatus where
  | optimal
  | infeasible
  | infOrUnbd
  | unbounded
  | suboptimal
  | other (code : Nat)
deriving DecidableEq

/-- What a solve call produced: whether a warning was logged and whether the
result vectors (`x_vector`, `mu_vector`, `objective`) were stored. -/
structure SolveOutcome where
  warned : Bool
  resultsStored : Bool
deriving DecidableEq

/-- The status handling of `solve_gurobi`: any status other than optimal /
suboptimal raises a `RuntimeError` before results are stored; suboptimal logs
a warning and stores results anyway. -/
def solveGurobiModel (status : GurobiStatus) : Except String SolveOutcome :=
  if status = .optimal ∨ status = .suboptimal then
    .ok { warned := decide (status = .suboptimal), resultsStored := true }
  else .error "Gurobi exited with non-optimal solution status"

/-- CVXPY termination statuses (`cp.OPTIMAL` is `"optimal"`;
`optimalInaccurate` is CVXPY's suboptimal-but-returned status
`"optimal_inaccurate"`). -/
inductive CvxpyStatus where
  | optimal
  | optimalInaccurate
  | infeasible
  | infeasibleInaccurate
  | unbounded
  | unboundedInaccurate
deriving DecidableEq

/-- The status handling of `solve_cvxpy`: the source checks
`cvxpy_problem.status == cp.OPTIMAL` and raises a `RuntimeError` on every
other status, including the suboptimal `optimal_inaccurate` one, before any
results are stored. -/
def solveCvxpyModel (status : CvxpyStatus) : Except String SolveOutcome :=
  if status = .optimal then .ok { warned := false, resultsStored := true }
  else .error "CVXPY exited with non-optimal solution status"

/-- A variable table of one name `x` with a single index key `i` ranging over
`c` values, as produced by `define_variable('x', i=range(c))`. -/
def varsSimple (c : Nat) : List Row :=
  (List.range c).map (fun j => [("name", KeyVal.str "x"), ("i", KeyVal.num j)])

/-- Query selecting the full variable vector of `x`. -/
def queryAllVars (c : Nat) : Query :=
  [("name", [KeyVal.str "x"]), ("i", (List.range c).map KeyVal.num)]

/-- A fresh problem whose variable table is `varsSimple c`. -/
def simpleState (c : Nat) : OptState :=
  { emptyProblem with variablesList := varsSimple c }

/-- Constraint keys with name `eq` and a key `t` of cardinality `r`. -/
def eqKeys (r : Nat) : Query :=
  [("name", [KeyVal.str "eq"]), ("t", (List.range r).map KeyVal.num)]

/-- Declaration of the equality constraint `M x == v` on the `x` vector. -/
def eqDeclare (c r : Nat) (M : Mat) (v : Vec) : Except String OptState :=
  defineConstraintLowLevel (simpleState c) [⟨1, Coef.mat M, queryAllVars c⟩] "=="
    [⟨1, Coef.vec v, none⟩] (some (eqKeys r)) none

/-- Constraint keys with name `ineq` and a key `t` of cardinality `r`. -/
def ineqKeys (r : Nat) : Query :=
  [("name", [KeyVal.str "ineq"]), ("t", (List.range r).map KeyVal.num)]

/-- Declaration of the pure inequality constraint `M x <= v`. -/
def leDeclare (c r : Nat) (M : Mat) (v : Vec) : Except String OptState :=
  defineConstraintLowLevel (simpleState c) [⟨1, Coef.mat M, queryAllVars c⟩] "<="
    [⟨1, Coef.vec v, none⟩] (some (ineqKeys r)) none

/-- Declaration of the pure inequality constraint `M x >= v`. -/
def geDeclare (c r : Nat) (M : Mat) (v : Vec) : Except String OptState :=
  defineConstraintLowLevel (simpleState c) [⟨1, Coef.mat M, queryAllVars c⟩] ">="
    [⟨1, Coef.vec v, none⟩] (some (ineqKeys r)) none

/-- The constraint rows generated for keys `eqKeys r` with the given
constraint type. -/
def eqRowsCT (r : Nat) (ct : KeyVal) : List Row :=
  (List.range r).map (fun i =>
    [("name", KeyVal.str "eq"), ("t", KeyVal.num i), ("constraint_type", ct)])

/-- The state produced by `eqDeclare`: the equality fans out into the `==>=`
block at row slots `0..r-1` (with `A` block `-M`, `b` block `-v`) and the
`==<=` block at row slots `r..2r-1` (with `A` block `M`, `b` block `v`). -/
def eqResultState (c r : Nat) (M : Mat) (v : Vec) : OptState :=
  { variablesList := varsSimple c,
    constraints := (rangeFrom 0 r).zip (eqRowsCT r (KeyVal.str "==>="))
      ++ (rangeFrom r r).zip (eqRowsCT r (KeyVal.str "==<=")),
    constraintsLen := r + r,
    parameters := [],
    aDict := [⟨rangeFrom 0 r, List.range c, .lit (matScale (-1) M)⟩,
              ⟨rangeFrom r r, List.range c, .lit (matScale 1 M)⟩],
    bDict := [⟨rangeFrom 0 r, .lit (vecScale (-1) v)⟩,
              ⟨rangeFrom r r, .lit (vecScale 1 v)⟩],
    cDict := [] }

/-- The intermediate state after the first (`==>=`) of the two fan-out
declarations of `eqDeclare`. -/
def eqMidState (c r : Nat) (M : Mat) (v : Vec) : OptState :=
  { variablesList := varsSimple c,
    constraints := (rangeFrom 0 r).zip (eqRowsCT r (KeyVal.str "==>=")),
    constraintsLen := r,
    parameters := [],
    aDict := [⟨rangeFrom 0 r, List.range c, .lit (matScale (-1) M)⟩],
    bDict := [⟨rangeFrom 0 r, .lit (vecScale (-1) v)⟩],
    cDict := [] }

/-- The constraint rows generated for keys `ineqKeys r` with the given
constraint type. -/
def ineqRowsCT (r : Nat) (ct : KeyVal) : List Row :=
  (List.range r).map (fun i =>
    [("name", KeyVal.str "ineq"), ("t", KeyVal.num i), ("constraint_type", ct)])

/-- The state produced by `leDeclare`: one `<=` block at row slots `0..r-1`. -/
def leResultState (c r : Nat) (M : Mat) (v : Vec) : OptState :=
  { variablesList := varsSimple c,
    constraints := (rangeFrom 0 r).zip (ineqRowsCT r (KeyVal.str "<=")),
    constraintsLen := r,
    parameters := [],
    aDict := [⟨rangeFrom 0 r, List.range c, .lit (matScale 1 M)⟩],
    bDict := [⟨rangeFrom 0 r, .lit (vecScale 1 v)⟩],
    cDict := [] }

/-- The state produced by `geDeclare`: one `>=` block at row slots `0..r-1`. -/
def geResultState (c r : Nat) (M : Mat) (v : Vec) : OptState :=
  { variablesList := varsSimple c,
    constraints := (rangeFrom 0 r).zip (ineqRowsCT r (KeyVal.str ">=")),
    constraintsLen := r,
    parameters := [],
    aDict := [⟨rangeFrom 0 r, List.range c, .lit (matScale (-1) M)⟩],
    bDict := [⟨rangeFrom 0 r, .lit (vecScale (-1) v)⟩],
    cDict := [] }

/-- Row `i` of the compiled `A` matrix dotted with `x` over the first `n`
variable columns. -/
def rowDotA (s : OptState) (n i : Nat) (x : Nat → ℚ) : ℚ :=
  ∑ j ∈ Finset.range n, getAMatrix s i j * x j

/-- Row `i` of a literal matrix dotted with `x` over `n` columns. -/
def matRowDot (M : Mat) (n i : Nat) (x : Nat → ℚ) : ℚ :=
  ∑ j ∈ Finset.range n, M.entry i j * x j

/-- A variable table of one name `x` with key columns `timestep` (cardinality
`T`) and `i` (cardinality `c`), timestep-major, as produced by
`define_variable('x', timestep=range(T), i=range(c))`. -/
def varsTimed (T c : Nat) : List Row :=
  (List.range T).flatMap (fun t => (List.range c).map (fun j =>
    [("name", KeyVal.str "x"), ("timestep", KeyVal.num t), ("i", KeyVal.num j)]))

/-- A fresh problem whose variable table is `varsTimed T c`. -/
def timedState (T c : Nat) : OptState :=
  { emptyProblem with variablesList := varsTimed T c }

/-- Query selecting all timesteps of `x`. -/
def queryTimedAll (T c : Nat) : Query :=
  [("name", [KeyVal.str "x"]), ("timestep", (List.range T).map KeyVal.num),
   ("i", (List.range c).map KeyVal.num)]

/-- Query selecting the single timestep `t` of `x`. -/
def queryTimedAt (t c : Nat) : Query :=
  [("name", [KeyVal.str "x"]), ("timestep", [KeyVal.num t]),
   ("i", (List.range c).map KeyVal.num)]

/-- One declaration of `M x_t <= v` for all `T` timesteps at once via
`broadcast='timestep'`. -/
def broadcastDeclare (T c : Nat) (M : Mat) (v : Vec) : Except String OptState :=
  defineConstraintLowLevel (timedState T c) [⟨1, Coef.mat M, queryTimedAll T c⟩] "<="
    [⟨1, Coef.vec v, some [("timestep", (List.range T).map KeyVal.num)]⟩] none
    (some ["timestep"])

/-- `T` separate declarations of `M x_t <= v`, one per explicit timestep key. -/
def perTimestepDeclare (T c : Nat) (M : Mat) (v : Vec) : Except String OptState :=
  declareSteps (timedState T c) (fun t s =>
    defineConstraintLowLevel s [⟨1, Coef.mat M, queryTimedAt t c⟩] "<="
      [⟨1, Coef.vec v, some [("timestep", [KeyVal.num t])]⟩] none none) T

/-- The state produced by `broadcastDeclare`: one `a_dict` entry holding the
block-diagonally tiled coefficient over all `T * r` fresh rows and all
`T * c` variable slots, and one `b_dict` entry holding the concatenated
constant. -/
def broadcastResultState (T r c : Nat) (M : Mat) (v : Vec) : OptState :=
  { variablesList := varsTimed T c,
    constraints := [],
    constraintsLen := T * r,
    parameters := [],
    aDict := [⟨rangeFrom 0 (T * r), List.range (T * c),
      .lit (matScale 1 (expandA (.mat M) (T * c) T))⟩],
    bDict := [⟨rangeFrom 0 (T * r), .lit (vecScale 1 (if T > 1 then joinRep v T else v))⟩],
    cDict := [] }

/-- The state after `k` of the `T` per-timestep declarations: one `a_dict`
entry per declared timestep, each on its own row block and variable slice. -/
def perTState (T r c : Nat) (M : Mat) (v : Vec) (k : Nat) : OptState :=
  { variablesList := varsTimed T c,
    constraints := [],
    constraintsLen := k * r,
    parameters := [],
    aDict := (List.range k).map (fun t =>
      ⟨rangeFrom (t * r) r, rangeFrom (t * c) c, .lit (matScale 1 M)⟩),
    bDict := (List.range k).map (fun t => ⟨rangeFrom (t * r) r, .lit (vecScale 1 v)⟩),
    cDict := [] }

/-- The `(rows, cols)` shape of a variable term's expanded coefficient block,
as computed inside `define_constraint_low_level` independently of the term's
position within the call (`none` when the term itself is rejected before the
shape comparison). -/
def varTermDims (s : OptState) (bc : Option (List String)) (t : VarTerm) :
    Option (Nat × Nat) :=
  let vi := getIndexList s.variablesList t.keys
  if vi.isEmpty then none else
  match broadcastLenVar bc t.keys with
  | .error _ => none
  | .ok blen =>
    match resolveCoef s.parameters t.value with
    | .error _ => none
    | .ok (_, v) =>
      some ((expandA v vi.length blen).rowCount, Mat.colCount (expandA v vi.length blen))

/-- The length of a constant term's cast value when the constraint count is
`r0` (`none` when the term itself is rejected). -/
def constTermLen (s : OptState) (bc : Option (List String)) (r0 : Nat) (t : ConstTerm) :
    Option Nat :=
  match resolveCoef s.parameters t.value with
  | .error _ => none
  | .ok (_, v) =>
    match expandConst v (some (List.range r0)) (broadcastLenConst bc t.keys) with
    | .error _ => none
    | .ok w => some w.length

/-- Whether an `a_dict` entry defers to the parameter named `q`. -/
def AEntry.refsParam (e : AEntry) (q : String) : Bool :=
  match e.val with | .par _ p _ => decide (p = q) | .lit _ => false

/-- Whether a `b_dict` entry defers to the parameter named `q`. -/
def BEntry.refsParam (e : BEntry) (q : String) : Bool :=
  match e.val with | .par _ p _ => decide (p = q) | .lit _ => false

/-- Whether a `c_dict` entry defers to the parameter named `q`. -/
def CEntry.refsParam (e : CEntry) (q : String) : Bool :=
  match e.val with | .par p _ => decide (p = q) | .lit _ => false

/-- A concrete problem state with one literal entry and one entry referencing
parameter `p` in each accumulator, for exercising parameter mutation. -/
def frameDemoState : OptState :=
  { emptyProblem with
      parameters := [("p", PVal.scalar 1), ("w", PVal.scalar 2)],
      aDict := [⟨[0], [0], .lit [[3]]⟩, ⟨[1], [0], .par 1 "p" 1⟩],
      bDict := [⟨[0], .lit [4]⟩, ⟨[1], .par 1 "p" 1⟩],
      cDict := [⟨[0], .lit [5]⟩, ⟨[1], .par "p" 1⟩] }

/-- The parameter store of `frameDemoState` after mutating `p` to `7`. -/
def frameDemoParams : List (String × PVal) :=
  [("p", PVal.scalar 7), ("w", PVal.scalar 2)]

/-- A problem with a single scalar variable `x` and a `timestep` column, for
exercising the empty-key-value path. -/
def sTimestep : OptState :=
  { emptyProblem with variablesList :=
      [[("name", KeyVal.str "x"), ("timestep", KeyVal.num 0)],
       [("name", KeyVal.str "x"), ("timestep", KeyVal.num 1)]] }

/-- A problem with a single scalar variable `x`. -/
def sSingleVar : OptState :=
  { emptyProblem with variablesList := [[("name", KeyVal.str "x")]] }

/-- Variable terms of a concrete well-shaped constraint declaration. -/
def c9Vars : List VarTerm := [⟨1, Coef.mat [[2]], queryAllVars 1⟩]

/-- Constant terms of a concrete well-shaped constraint declaration. -/
def c9Consts : List ConstTerm := [⟨1, Coef.vec [5], none⟩]

end Mesmo

namespace Mesmo

/-! ## Support lemmas -/

theorem lookup_overwriteMap (ps : List (String × PVal)) (n : String) (v : PVal)
    (h : (ps.lookup n).isSome) :
    (ps.map (fun kv => if kv.1 = n then (n, v) else kv)).lookup n = some v := by
  induction ps with
  | nil => simp [List.lookup] at h
  | cons hd tl ih =>
    obtain ⟨k, w⟩ := hd
    simp only [List.map_cons]
    by_cases hh : k = n
    · subst hh
      rw [if_pos rfl]
      simp [List.lookup]
    · rw [if_neg hh]
      have hne : (n == k) = false := beq_eq_false_iff_ne.mpr (fun e => hh e.symm)
      have h2 : (tl.lookup n).isSome := by
        simpa [List.lookup, hne] using h
      simpa [List.lookup, hne] using ih h2

theorem lookup_append_single (ps : List (String × PVal)) (n : String) (v : PVal)
    (h : ps.lookup n = none) :
    (ps ++ [(n, v)]).lookup n = some v := by
  induction ps with
  | nil => simp [List.lookup]
  | cons hd tl ih =>
    by_cases hh : n = hd.1
    · simp [List.lookup, hh] at h
    · have hne : (n == hd.1) = false := by simp [beq_iff_eq, hh]
      have h2 : tl.lookup n = none := by simpa [List.lookup, hne] using h
      simpa [List.lookup, hne] using ih h2

theorem lookup_setAssoc (ps : List (String × PVal)) (n : String) (v : PVal) :
    (setAssoc ps n v).lookup n = some v := by
  unfold setAssoc
  by_cases h : (ps.lookup n).isSome
  · rw [if_pos h]
    exact lookup_overwriteMap ps n v h
  · rw [if_neg h]
    exact lookup_append_single ps n v (Option.not_isSome_iff_eq_none.mp h)

theorem mem_dedupFirst {α : Type} [DecidableEq α] (l : List α) (a : α) :
    a ∈ dedupFirst l ↔ a ∈ l := by
  induction l using dedupFirst.induct with
  | case1 => simp [dedupFirst]
  | case2 x xs ih =>
    rw [dedupFirst]
    by_cases hax : a = x
    · subst hax
      simp
    · simp only [List.mem_cons, ih, List.mem_filter, ne_eq, decide_eq_true_eq, hax,
        false_or, not_false_iff, and_true]

theorem nodup_dedupFirst {α : Type} [DecidableEq α] (l : List α) :
    (dedupFirst l).Nodup := by
  induction l using dedupFirst.induct with
  | case1 => simp [dedupFirst]
  | case2 x xs ih =>
    rw [dedupFirst]
    refine List.Nodup.cons ?_ ih
    intro hx
    have hmem := (mem_dedupFirst _ _).mp hx
    rw [List.mem_filter] at hmem
    simpa using hmem.2

theorem dedupFirst_idem {α : Type} [DecidableEq α] (l : List α) :
    dedupFirst (dedupFirst l) = dedupFirst l := by
  induction l using dedupFirst.induct with
  | case1 => simp [dedupFirst]
  | case2 x xs ih =>
    rw [dedupFirst, dedupFirst]
    have hfix : (dedupFirst (xs.filter (fun y => y ≠ x))).filter (fun y => y ≠ x)
        = dedupFirst (xs.filter (fun y => y ≠ x)) := by
      apply List.filter_eq_self.mpr
      intro a ha
      have := (mem_dedupFirst _ _).mp ha
      simp only [List.mem_filter] at this
      exact this.2
    rw [hfix, ih]

theorem dedupFirst_append_of_subset {α : Type} [DecidableEq α] (l₁ l₂ : List α)
    (h : ∀ a ∈ l₂, a ∈ l₁) : dedupFirst (l₁ ++ l₂) = dedupFirst l₁ := by
  induction l₁ using dedupFirst.induct generalizing l₂ with
  | case1 =>
    have : l₂ = [] := List.eq_nil_iff_forall_not_mem.mpr (fun a ha => by simpa using h a ha)
    simp [this]
  | case2 x xs ih =>
    rw [List.cons_append, dedupFirst, dedupFirst, List.filter_append]
    rw [ih (l₂.filter (fun y => y ≠ x)) ?_]
    intro a ha
    simp only [List.mem_filter, ne_eq, decide_eq_true_eq] at ha ⊢
    rcases List.mem_cons.mp (h a ha.1) with hax | haxs
    · exact absurd hax ha.2
    · exact ⟨haxs, ha.2⟩

theorem updateVariablesList_self (st : OptState) (X : List Row) (h : X = st.variablesList) :
    { st with variablesList := X } = st := by
  cases st
  simpa using h

theorem except_eq_ok_of_toOption {ε α : Type} (e : Except ε α) (a : α)
    (h : e.toOption = some a) : e = .ok a := by
  cases e with
  | error e2 => simp [Except.toOption] at h
  | ok b =>
    simp [Except.toOption] at h
    rw [h]

theorem getD_map_range {β : Type} [Inhabited β] (n i : Nat) (f : Nat → β) (d : β)
    (hi : i < n) : ((List.range n).map f).getD i d = f i := by
  rw [List.getD_eq_getElem?_getD, List.getElem?_map, List.getElem?_range hi]
  rfl

theorem rangeFrom_length (L n : Nat) : (rangeFrom L n).length = n := by
  simp [rangeFrom]

theorem rangeFrom_getD (L n i : Nat) (hi : i < n) : (rangeFrom L n).getD i 0 = L + i :=
  getD_map_range n i _ 0 hi

theorem mem_rangeFrom (L n a : Nat) : a ∈ rangeFrom L n ↔ L ≤ a ∧ a < L + n := by
  simp only [rangeFrom, List.mem_map, List.mem_range]
  constructor
  · rintro ⟨k, hk, rfl⟩
    exact ⟨Nat.le_add_right _ _, Nat.add_lt_add_left hk _⟩
  · rintro ⟨hla, han⟩
    exact ⟨a - L, by omega, by omega⟩

theorem rangeFrom_zero (n : Nat) : rangeFrom 0 n = List.range n := by
  simp [rangeFrom]

theorem sum_map_range (n : Nat) (f : Nat → ℚ) :
    ((List.range n).map f).sum = ∑ k ∈ Finset.range n, f k := by
  induction n with
  | zero => simp
  | succ n ih => simp [List.range_succ, Finset.sum_range_succ, ih]

theorem sum_shift_ite (n K j : Nat) (f : Nat → ℚ) :
    (∑ b ∈ Finset.range n, if K + b = j then f b else 0)
      = if K ≤ j ∧ j < K + n then f (j - K) else 0 := by
  by_cases h : K ≤ j ∧ j < K + n
  · rw [if_pos h]
    rw [Finset.sum_eq_single_of_mem (j - K) (Finset.mem_range.mpr (by omega))]
    · rw [if_pos (by omega)]
    · intro b _ hb
      rw [if_neg (by omega)]
  · rw [if_neg h]
    apply Finset.sum_eq_zero
    intro b hb
    rw [Finset.mem_range] at hb
    rw [if_neg (by omega)]

theorem matOfFn_rowCount (r c : Nat) (f : Nat → Nat → ℚ) : (matOfFn r c f).rowCount = r := by
  simp [matOfFn, Mat.rowCount]

theorem matOfFn_colCount (r c : Nat) (f : Nat → Nat → ℚ) (hr : 0 < r) :
    Mat.colCount (matOfFn r c f) = c := by
  unfold matOfFn Mat.colCount
  match r, hr with
  | Nat.succ r, _ => simp [List.range_succ_eq_map]

theorem matOfFn_entry (r c : Nat) (f : Nat → Nat → ℚ) (i j : Nat) (hi : i < r) (hj : j < c) :
    (matOfFn r c f).entry i j = f i j := by
  unfold matOfFn Mat.entry
  rw [getD_map_range r i _ [] hi, getD_map_range c j _ 0 hj]

theorem mat_entry_oob_row (m : Mat) (i j : Nat) (hi : m.rowCount ≤ i) : m.entry i j = 0 := by
  unfold Mat.entry
  rw [List.getD_eq_default _ _ hi]
  rfl

theorem matOfFn_entry_oob_col (r c : Nat) (f : Nat → Nat → ℚ) (i j : Nat) (hj : c ≤ j) :
    (matOfFn r c f).entry i j = 0 := by
  unfold matOfFn Mat.entry
  by_cases hi : i < r
  · rw [getD_map_range r i _ [] hi, List.getD_eq_default]
    simpa using hj
  · have h0 : ((List.range r).map (fun i => (List.range c).map (fun j => f i j))).getD i []
        = [] := by
      apply List.getD_eq_default
      simpa using Nat.le_of_not_lt hi
    rw [h0]
    rfl

theorem vec_map_getD (g : ℚ → ℚ) (hg : g 0 = 0) (v : Vec) (j : Nat) :
    (v.map g).getD j 0 = g (v.getD j 0) := by
  rw [List.getD_eq_getElem?_getD, List.getD_eq_getElem?_getD, List.getElem?_map]
  cases h : v[j]? with
  | none => simp [hg]
  | some a => simp

theorem matScale_entry (q : ℚ) (m : Mat) (i j : Nat) :
    (matScale q m).entry i j = q * m.entry i j := by
  unfold matScale Mat.entry
  have hrow : (m.map (fun row => row.map (fun x => q * x))).getD i []
      = (m.getD i []).map (fun x => q * x) := by
    rw [List.getD_eq_getElem?_getD, List.getD_eq_getElem?_getD, List.getElem?_map]
    cases h : m[i]? with
    | none => simp
    | some row => simp
  rw [hrow]
  exact vec_map_getD _ (mul_zero q) _ j

theorem matScale_rowCount (q : ℚ) (m : Mat) : (matScale q m).rowCount = m.rowCount := by
  simp [matScale, Mat.rowCount]

theorem vecScale_getD (q : ℚ) (v : Vec) (i : Nat) :
    (vecScale q v).getD i 0 = q * v.getD i 0 :=
  vec_map_getD _ (mul_zero q) v i

theorem vecScale_length (q : ℚ) (v : Vec) : (vecScale q v).length = v.length := by
  simp [vecScale]

theorem colCount_of_rect (M : Mat) (c : Nat) (hne : M ≠ [])
    (hrect : ∀ row ∈ M, row.length = c) : Mat.colCount M = c := by
  match M, hne with
  | row :: rest, _ =>
    show row.length = c
    exact hrect row (List.mem_cons_self _ _)

theorem aContrib_lit_range (ps : List (String × PVal)) (i j L K r c : Nat) (N : Mat) :
    aContrib ps i j ⟨rangeFrom L r, rangeFrom K c, .lit N⟩
      = if L ≤ i ∧ i < L + r ∧ K ≤ j ∧ j < K + c then N.entry (i - L) (j - K) else 0 := by
  unfold aContrib resolveA
  simp only [rangeFrom_length]
  have hinner : ∀ a ∈ Finset.range r,
      (∑ b ∈ Finset.range c,
        if (rangeFrom L r).getD a 0 = i ∧ (rangeFrom K c).getD b 0 = j then N.entry a b else 0)
      = if L + a = i then (if K ≤ j ∧ j < K + c then N.entry a (j - K) else 0) else 0 := by
    intro a ha
    rw [Finset.mem_range] at ha
    by_cases hLa : L + a = i
    · rw [if_pos hLa, ← sum_shift_ite c K j (fun b => N.entry a b)]
      apply Finset.sum_congr rfl
      intro b hb
      rw [Finset.mem_range] at hb
      rw [rangeFrom_getD L r a ha, rangeFrom_getD K c b hb]
      simp [hLa]
    · rw [if_neg hLa]
      apply Finset.sum_eq_zero
      intro b hb
      rw [Finset.mem_range] at hb
      rw [rangeFrom_getD L r a ha, rangeFrom_getD K c b hb]
      simp [hLa]
  rw [Finset.sum_congr rfl hinner,
    sum_shift_ite r L i (fun a => if K ≤ j ∧ j < K + c then N.entry a (j - K) else 0)]
  by_cases h1 : L ≤ i ∧ i < L + r
  · rw [if_pos h1]
    by_cases h2 : K ≤ j ∧ j < K + c
    · rw [if_pos h2, if_pos ⟨h1.1, h1.2, h2.1, h2.2⟩]
    · rw [if_neg h2, if_neg (by tauto)]
  · rw [if_neg h1, if_neg (by tauto)]

theorem bContrib_lit_range (ps : List (String × PVal)) (i L r : Nat) (w : Vec) :
    bContrib ps i ⟨rangeFrom L r, .lit w⟩
      = if L ≤ i ∧ i < L + r then w.getD (i - L) 0 else 0 := by
  unfold bContrib resolveB
  simp only [rangeFrom_length]
  rw [← sum_shift_ite r L i (fun a => w.getD a 0)]
  apply Finset.sum_congr rfl
  intro a ha
  rw [Finset.mem_range] at ha
  rw [rangeFrom_getD L r a ha]

theorem aContrib_zero_of_not_mem (ps : List (String × PVal)) (i j : Nat) (e : AEntry)
    (h : i ∉ e.ci ∨ j ∉ e.vi) : aContrib ps i j e = 0 := by
  unfold aContrib
  apply Finset.sum_eq_zero
  intro a ha
  rw [Finset.mem_range] at ha
  apply Finset.sum_eq_zero
  intro b hb
  rw [Finset.mem_range] at hb
  rw [if_neg]
  rintro ⟨hci, hvi⟩
  rcases h with h | h
  · apply h
    rw [← hci, List.getD_eq_getElem _ _ ha]
    exact List.getElem_mem _
  · apply h
    rw [← hvi, List.getD_eq_getElem _ _ hb]
    exact List.getElem_mem _

theorem bContrib_zero_of_not_mem (ps : List (String × PVal)) (i : Nat) (e : BEntry)
    (h : i ∉ e.ci) : bContrib ps i e = 0 := by
  unfold bContrib
  apply Finset.sum_eq_zero
  intro a ha
  rw [Finset.mem_range] at ha
  rw [if_neg]
  intro hci
  apply h
  rw [← hci, List.getD_eq_getElem _ _ ha]
  exact List.getElem_mem _

theorem cContrib_zero_of_not_mem (ps : List (String × PVal)) (j : Nat) (e : CEntry)
    (h : j ∉ e.vi) : cContrib ps j e = 0 := by
  unfold cContrib
  apply Finset.sum_eq_zero
  intro a ha
  rw [Finset.mem_range] at ha
  rw [if_neg]
  intro hvi
  apply h
  rw [← hvi, List.getD_eq_getElem _ _ ha]
  exact List.getElem_mem _

theorem getIndex_varsSimple (c : Nat) :
    getIndexList (varsSimple c) (queryAllVars c) = List.range c := by
  unfold getIndexList
  rw [show (varsSimple c).length = c by simp [varsSimple]]
  apply List.filter_eq_self.mpr
  intro a ha
  rw [List.mem_range] at ha
  rw [show (varsSimple c).getD a []
      = [("name", KeyVal.str "x"), ("i", KeyVal.num a)] from getD_map_range c a _ [] ha]
  simp [rowMatchesAll, queryAllVars, rowMatchesOne, List.lookup, keyMem, List.mem_map]
  exact ha

theorem varsTimed_length (T c : Nat) : (varsTimed T c).length = T * c := by
  induction T with
  | zero => simp [varsTimed]
  | succ T ih =>
    unfold varsTimed at ih ⊢
    rw [List.range_succ, List.flatMap_append]
    simp only [List.length_append, ih, List.flatMap_cons, List.flatMap_nil, List.append_nil,
      List.length_map, List.length_range]
    ring

theorem varsTimed_getD (T c t j : Nat) (ht : t < T) (hj : j < c) :
    (varsTimed T c).getD (t * c + j) []
      = [("name", KeyVal.str "x"), ("timestep", KeyVal.num t), ("i", KeyVal.num j)] := by
  induction T with
  | zero => omega
  | succ T ih =>
    unfold varsTimed
    rw [List.range_succ, List.flatMap_append]
    by_cases htT : t < T
    · rw [List.getD_append]
      · exact ih htT
      · have h1 : (varsTimed T c).length = T * c := varsTimed_length T c
        unfold varsTimed at h1
        rw [h1]
        have : t * c + c ≤ T * c := by
          calc t * c + c = (t + 1) * c := (Nat.succ_mul t c).symm
            _ ≤ T * c := Nat.mul_le_mul_right c htT
        omega
    · have htEq : t = T := by omega
      subst htEq
      rw [List.getD_append_right]
      · have h1 : (varsTimed t c).length = t * c := varsTimed_length t c
        unfold varsTimed at h1
        rw [h1, Nat.add_sub_cancel_left]
        simp only [List.flatMap_cons, List.flatMap_nil, List.append_nil]
        exact getD_map_range c j _ [] hj
      · have h1 : (varsTimed t c).length = t * c := varsTimed_length t c
        unfold varsTimed at h1
        rw [h1]
        omega

theorem getIndex_timedAll (T c : Nat) :
    getIndexList (varsTimed T c) (queryTimedAll T c) = List.range (T * c) := by
  unfold getIndexList
  rw [varsTimed_length]
  apply List.filter_eq_self.mpr
  intro p hp
  rw [List.mem_range] at hp
  have hcpos : 0 < c := by
    by_contra hc0
    have : c = 0 := by omega
    subst this
    omega
  have hdiv : p / c < T := by
    rw [Nat.div_lt_iff_lt_mul hcpos]
    omega
  have hmod : p % c < c := Nat.mod_lt _ hcpos
  have hsplit : p / c * c + p % c = p := Nat.div_add_mod' p c
  rw [← hsplit, varsTimed_getD T c (p / c) (p % c) hdiv hmod]
  simp [rowMatchesAll, queryTimedAll, rowMatchesOne, List.lookup, keyMem, List.mem_map]
  exact ⟨hdiv, hmod⟩

theorem filter_div_eq (c : Nat) (hc : 0 < c) :
    ∀ (T t : Nat), t < T →
    (List.range (T * c)).filter (fun p => decide (p / c = t)) = rangeFrom (t * c) c := by
  intro T
  induction T with
  | zero => omega
  | succ T ih =>
    intro t ht
    rw [show (T + 1) * c = T * c + c from Nat.succ_mul T c, List.range_add, List.filter_append]
    by_cases htT : t < T
    · rw [ih t htT]
      have hnil : ((List.range c).map (T * c + ·)).filter
          (fun p => decide (p / c = t)) = [] := by
        apply List.filter_eq_nil_iff.mpr
        intro p hp
        obtain ⟨k, hk, rfl⟩ := List.mem_map.mp hp
        rw [List.mem_range] at hk
        have : (T * c + k) / c = T := by
          rw [Nat.add_comm, Nat.add_mul_div_right k T hc, Nat.div_eq_of_lt hk]
          omega
        simp [this]
        omega
      rw [hnil, List.append_nil]
    · have htEq : t = T := by omega
      subst htEq
      have hnil : (List.range (t * c)).filter (fun p => decide (p / c = t)) = [] := by
        apply List.filter_eq_nil_iff.mpr
        intro p hp
        rw [List.mem_range] at hp
        have : p / c < t := by
          rw [Nat.div_lt_iff_lt_mul hc]
          omega
        simp
        omega
      have hall : ((List.range c).map (t * c + ·)).filter
          (fun p => decide (p / c = t)) = (List.range c).map (t * c + ·) := by
        apply List.filter_eq_self.mpr
        intro p hp
        obtain ⟨k, hk, rfl⟩ := List.mem_map.mp hp
        rw [List.mem_range] at hk
        have : (t * c + k) / c = t := by
          rw [Nat.add_comm, Nat.add_mul_div_right k t hc, Nat.div_eq_of_lt hk]
          omega
        simp [this]
      rw [hnil, hall, List.nil_append]
      rfl

theorem getIndex_timedAt (T c t : Nat) (ht : t < T) (hcpos : 0 < c) :
    getIndexList (varsTimed T c) (queryTimedAt t c) = rangeFrom (t * c) c := by
  unfold getIndexList
  rw [varsTimed_length]
  rw [List.filter_congr (q := fun p => decide (p / c = t)) ?_]
  · exact filter_div_eq c hcpos T t ht
  · intro p hp
    rw [List.mem_range] at hp
    have hdiv : p / c < T := by
      rw [Nat.div_lt_iff_lt_mul hcpos]
      omega
    have hmod : p % c < c := Nat.mod_lt _ hcpos
    have hsplit : p / c * c + p % c = p := Nat.div_add_mod' p c
    have hrow := varsTimed_getD T c (p / c) (p % c) hdiv hmod
    rw [hsplit] at hrow
    rw [hrow]
    by_cases h : p / c = t
    · simp [rowMatchesAll, queryTimedAt, rowMatchesOne, List.lookup, keyMem,
        List.mem_map, List.any_eq_true, h]
      exact hmod
    · simp [rowMatchesAll, queryTimedAt, rowMatchesOne, List.lookup, keyMem,
        List.mem_map, List.any_eq_true, h, show ¬ t = p / c from fun hEq => h hEq.symm]

theorem cartProd_name_t_ct (k1 : String) (nm : KeyVal) (r : Nat) (ct : KeyVal) :
    cartProd [("name", [nm]), (k1, (List.range r).map KeyVal.num),
      ("constraint_type", [ct])]
      = (List.range r).map (fun i =>
          [("name", nm), (k1, KeyVal.num i), ("constraint_type", ct)]) := by
  simp [cartProd]
  rw [show ((List.map KeyVal.num (List.range r)).flatMap
        fun v => [[(k1, v), ("constraint_type", ct)]])
      = (List.map KeyVal.num (List.range r)).map
        (fun v => [(k1, v), ("constraint_type", ct)]) from (List.map_eq_flatMap _ _).symm]
  simp [List.map_map]

theorem setKey_append_ct (q : Query) (vs : List KeyVal)
    (h : q.lookup "constraint_type" = none) :
    setKey q "constraint_type" vs = q ++ [("constraint_type", vs)] := by
  simp [setKey, h]

theorem setKeyCT_keeps_eq (q : Query) (vs : List KeyVal) (op : String)
    (h : q.lookup "constraint_type" = some vs)
    (hvs : vs = [KeyVal.str "==>="] ∨ vs = [KeyVal.str "==<="]) :
    setKeyCT q op = q := by
  rcases hvs with hvs | hvs <;> simp [setKeyCT, h, hvs]

theorem setKeyCT_appends (q : Query) (op : String)
    (h : q.lookup "constraint_type" = none) :
    setKeyCT q op = q ++ [("constraint_type", [KeyVal.str op])] := by
  simp [setKeyCT, h, setKey_append_ct]

theorem processVar_simple_eval (s : OptState) (opf : ℚ) (M : Mat) (r c : Nat)
    (hvl : s.variablesList = varsSimple c)
    (hr : M.rowCount = r) (hrect : ∀ row ∈ M, row.length = c)
    (hrpos : 0 < r) (hcpos : 0 < c) :
    processVar s opf none none ⟨1, Coef.mat M, queryAllVars c⟩
      = .ok (rangeFrom s.constraintsLen r,
          ⟨rangeFrom s.constraintsLen r, List.range c, .lit (matScale opf M)⟩) := by
  have hMne : M ≠ [] := by
    intro h0
    rw [h0] at hr
    simp [Mat.rowCount] at hr
    omega
  have hcol : Mat.colCount M = c := colCount_of_rect M c hMne hrect
  have hemp : (List.range c).isEmpty = false := by
    simp [List.isEmpty_iff, List.range_eq_nil]
    omega
  simp [processVar, hvl, getIndex_varsSimple, hemp, broadcastLenVar, resolveCoef, expandA,
    hr, hcol, rangeFrom_length]

theorem processConst_simple_eval (s : OptState) (opf : ℚ) (v : Vec) (r L : Nat)
    (hv : v.length = r) :
    processConst s opf none (some (rangeFrom L r)) ⟨1, Coef.vec v, none⟩
      = .ok (rangeFrom L r, ⟨rangeFrom L r, .lit (vecScale opf v)⟩) := by
  simp [processConst, resolveCoef, broadcastLenConst, expandConst, hv, rangeFrom_length]

theorem defineIneq_simple_eval (s : OptState) (geq : Bool) (M : Mat) (v : Vec) (r c : Nat)
    (ks : Query) (krows : List Row)
    (hvl : s.variablesList = varsSimple c)
    (hr : M.rowCount = r) (hrect : ∀ row ∈ M, row.length = c) (hv : v.length = r)
    (hrpos : 0 < r) (hcpos : 0 < c)
    (hks : cartProd (setKeyCT ks (if geq then ">=" else "<=")) = krows)
    (hkl : krows.length = r) :
    defineIneq s [⟨1, Coef.mat M, queryAllVars c⟩] geq [⟨1, Coef.vec v, none⟩] (some ks) none
      = .ok { s with
          aDict := s.aDict ++ [⟨rangeFrom s.constraintsLen r, List.range c,
            .lit (matScale (if geq then -1 else 1) M)⟩],
          bDict := s.bDict ++ [⟨rangeFrom s.constraintsLen r,
            .lit (vecScale (if geq then -1 else 1) v)⟩],
          constraints := s.constraints ++ (rangeFrom s.constraintsLen r).zip krows,
          constraintsLen := s.constraintsLen + r } := by
  have hpv := processVar_simple_eval s (if geq then -1 else 1) M r c hvl hr hrect hrpos hcpos
  have hpc := processConst_simple_eval s (if geq then -1 else 1) v r s.constraintsLen hv
  simp only [defineIneq, mul_one, processVars, hpv, processConsts, hpc, hks]
  rw [if_pos (by rw [hkl, rangeFrom_length])]
  simp [rangeFrom_length]

theorem eqKeys_lookup_ct (r : Nat) : (eqKeys r).lookup "constraint_type" = none := by
  simp [eqKeys, List.lookup]

theorem eqDeclare_first_eval (c r : Nat) (M : Mat) (v : Vec)
    (hr : M.rowCount = r) (hrect : ∀ row ∈ M, row.length = c) (hv : v.length = r)
    (hrpos : 0 < r) (hcpos : 0 < c) :
    defineIneq (simpleState c) [⟨1, Coef.mat M, queryAllVars c⟩] true
        [⟨1, Coef.vec v, none⟩]
        (some (setKey (eqKeys r) "constraint_type" [KeyVal.str "==>="])) none
      = .ok (eqMidState c r M v) := by
  have hks : cartProd (setKeyCT (setKey (eqKeys r) "constraint_type" [KeyVal.str "==>="])
      (if (true : Bool) then ">=" else "<=")) = eqRowsCT r (KeyVal.str "==>=") := by
    rw [setKey_append_ct _ _ (eqKeys_lookup_ct r)]
    have hlk : (eqKeys r ++ [("constraint_type", [KeyVal.str "==>="])]).lookup "constraint_type"
        = some [KeyVal.str "==>="] := by
      simp [eqKeys, List.lookup]
    rw [show (if (true : Bool) then ">=" else "<=") = ">=" from rfl,
      setKeyCT_keeps_eq _ _ _ hlk (Or.inl rfl)]
    show cartProd [("name", [KeyVal.str "eq"]), ("t", (List.range r).map KeyVal.num),
      ("constraint_type", [KeyVal.str "==>="])] = _
    rw [cartProd_name_t_ct]
    rfl
  rw [defineIneq_simple_eval (simpleState c) true M v r c _ _ rfl hr hrect hv hrpos hcpos hks
    (by simp [eqRowsCT])]
  congr 1
  simp [simpleState, emptyProblem, eqMidState]

theorem eqDeclare_second_eval (c r : Nat) (M : Mat) (v : Vec)
    (hr : M.rowCount = r) (hrect : ∀ row ∈ M, row.length = c) (hv : v.length = r)
    (hrpos : 0 < r) (hcpos : 0 < c) :
    defineIneq (eqMidState c r M v) [⟨1, Coef.mat M, queryAllVars c⟩] false
        [⟨1, Coef.vec v, none⟩]
        (some (setKey (eqKeys r) "constraint_type" [KeyVal.str "==<="])) none
      = .ok (eqResultState c r M v) := by
  have hks : cartProd (setKeyCT (setKey (eqKeys r) "constraint_type" [KeyVal.str "==<="])
      (if (false : Bool) then ">=" else "<=")) = eqRowsCT r (KeyVal.str "==<=") := by
    rw [setKey_append_ct _ _ (eqKeys_lookup_ct r)]
    have hlk : (eqKeys r ++ [("constraint_type", [KeyVal.str "==<="])]).lookup "constraint_type"
        = some [KeyVal.str "==<="] := by
      simp [eqKeys, List.lookup]
    rw [show (if (false : Bool) then ">=" else "<=") = "<=" from rfl,
      setKeyCT_keeps_eq _ _ _ hlk (Or.inr rfl)]
    show cartProd [("name", [KeyVal.str "eq"]), ("t", (List.range r).map KeyVal.num),
      ("constraint_type", [KeyVal.str "==<="])] = _
    rw [cartProd_name_t_ct]
    rfl
  rw [defineIneq_simple_eval (eqMidState c r M v) false M v r c _ _ rfl hr hrect hv hrpos hcpos
    hks (by simp [eqRowsCT])]
  congr 1

theorem eqDeclare_eval (c r : Nat) (M : Mat) (v : Vec)
    (hr : M.rowCount = r) (hrect : ∀ row ∈ M, row.length = c) (hv : v.length = r)
    (hrpos : 0 < r) (hcpos : 0 < c) :
    eqDeclare c r M v = .ok (eqResultState c r M v) := by
  unfold eqDeclare defineConstraintLowLevel
  rw [if_neg (by simp), if_neg (by simp [eqKeys, List.lookup]), if_pos rfl]
  simp only [Option.map_some']
  rw [eqDeclare_first_eval c r M v hr hrect hv hrpos hcpos]
  exact eqDeclare_second_eval c r M v hr hrect hv hrpos hcpos

theorem eqResult_aEntry (c r : Nat) (M : Mat) (v : Vec) (i j : Nat) :
    getAMatrix (eqResultState c r M v) i j
      = (if i < r ∧ j < c then -1 * M.entry i j else 0)
        + (if r ≤ i ∧ i < r + r ∧ j < c then 1 * M.entry (i - r) j else 0) := by
  unfold getAMatrix eqResultState
  simp only [List.map_cons, List.map_nil, List.sum_cons, List.sum_nil, add_zero]
  rw [← rangeFrom_zero c, aContrib_lit_range, aContrib_lit_range]
  simp only [matScale_entry, Nat.sub_zero, zero_add, Nat.zero_le, true_and]

theorem eqResult_bEntry (c r : Nat) (M : Mat) (v : Vec) (i : Nat) :
    getBVector (eqResultState c r M v) i
      = (if i < r then -1 * v.getD i 0 else 0)
        + (if r ≤ i ∧ i < r + r then 1 * v.getD (i - r) 0 else 0) := by
  unfold getBVector eqResultState
  simp only [List.map_cons, List.map_nil, List.sum_cons, List.sum_nil, add_zero]
  rw [bContrib_lit_range, bContrib_lit_range]
  simp only [vecScale_getD, Nat.sub_zero, zero_add, Nat.zero_le, true_and]

theorem map_snd_zip_eq {α β : Type} (l1 : List α) (l2 : List β) (h : l1.length = l2.length) :
    (l1.zip l2).map Prod.snd = l2 := by
  induction l1 generalizing l2 with
  | nil =>
    cases l2 with
    | nil => rfl
    | cons b bs => simp at h
  | cons a as ih =>
    cases l2 with
    | nil => simp at h
    | cons b bs =>
      simp only [List.zip_cons_cons, List.map_cons]
      rw [ih bs (by simpa using h)]

theorem getIndex_two_block (rows1 rows2 : List Row) (q : Query)
    (h1 : ∀ row ∈ rows1, rowMatchesAll row q = true)
    (h2 : ∀ row ∈ rows2, rowMatchesAll row q = false) :
    getIndexList (rows1 ++ rows2) q = List.range rows1.length := by
  unfold getIndexList
  rw [List.length_append, List.range_add, List.filter_append]
  have ha : (List.range rows1.length).filter
      (fun i => rowMatchesAll ((rows1 ++ rows2).getD i []) q) = List.range rows1.length := by
    apply List.filter_eq_self.mpr
    intro p hp
    rw [List.mem_range] at hp
    rw [List.getD_append _ _ _ _ hp]
    apply h1
    rw [List.getD_eq_getElem _ _ hp]
    exact List.getElem_mem _
  have hb : ((List.range rows2.length).map (rows1.length + ·)).filter
      (fun i => rowMatchesAll ((rows1 ++ rows2).getD i []) q) = [] := by
    apply List.filter_eq_nil_iff.mpr
    intro p hp
    obtain ⟨k, hk, rfl⟩ := List.mem_map.mp hp
    rw [List.mem_range] at hk
    rw [List.getD_append_right _ _ _ _ (Nat.le_add_right _ _), Nat.add_sub_cancel_left]
    have hkl : k < rows2.length := hk
    rw [List.getD_eq_getElem _ _ hkl]
    simp [h2 _ (List.getElem_mem _)]
  rw [ha, hb, List.append_nil]

theorem getIndex_two_block_second (rows1 rows2 : List Row) (q : Query)
    (h1 : ∀ row ∈ rows1, rowMatchesAll row q = false)
    (h2 : ∀ row ∈ rows2, rowMatchesAll row q = true) :
    getIndexList (rows1 ++ rows2) q = (List.range rows2.length).map (rows1.length + ·) := by
  unfold getIndexList
  rw [List.length_append, List.range_add, List.filter_append]
  have ha : (List.range rows1.length).filter
      (fun i => rowMatchesAll ((rows1 ++ rows2).getD i []) q) = [] := by
    apply List.filter_eq_nil_iff.mpr
    intro p hp
    rw [List.mem_range] at hp
    rw [List.getD_append _ _ _ _ hp, List.getD_eq_getElem _ _ hp]
    simp [h1 _ (List.getElem_mem _)]
  have hb : ((List.range rows2.length).map (rows1.length + ·)).filter
      (fun i => rowMatchesAll ((rows1 ++ rows2).getD i []) q)
      = (List.range rows2.length).map (rows1.length + ·) := by
    apply List.filter_eq_self.mpr
    intro p hp
    obtain ⟨k, hk, rfl⟩ := List.mem_map.mp hp
    rw [List.mem_range] at hk
    rw [List.getD_append_right _ _ _ _ (Nat.le_add_right _ _), Nat.add_sub_cancel_left]
    rw [List.getD_eq_getElem _ _ hk]
    exact h2 _ (List.getElem_mem _)
  rw [ha, hb, List.nil_append]

theorem zip_slots_getD (slots : List Nat) (rows : List Row) (p : Nat)
    (hlen : slots.length = rows.length) (hp : p < slots.length) :
    ((slots.zip rows).getD p (0, [])).1 = slots.getD p 0 := by
  have hzp : p < (slots.zip rows).length := by
    simp [List.length_zip]
    omega
  rw [List.getD_eq_getElem _ _ hzp, List.getD_eq_getElem _ _ hp, List.getElem_zip]

theorem conSlots_two_block_first (s : OptState) (slots1 slots2 : List Nat)
    (rows1 rows2 : List Row) (q : Query)
    (hcon : s.constraints = slots1.zip rows1 ++ slots2.zip rows2)
    (hlen1 : slots1.length = rows1.length) (hlen2 : slots2.length = rows2.length)
    (hm1 : ∀ row ∈ rows1, rowMatchesAll row q = true)
    (hm2 : ∀ row ∈ rows2, rowMatchesAll row q = false) :
    conSlots s q = slots1 := by
  unfold conSlots conRows
  rw [hcon, List.map_append, map_snd_zip_eq _ _ hlen1, map_snd_zip_eq _ _ hlen2,
    getIndex_two_block rows1 rows2 q hm1 hm2]
  apply List.ext_getElem (by simp [hlen1])
  intro p h1 h2
  rw [List.getElem_map, List.getElem_range]
  have hp1 : p < slots1.length := by
    simp at h1
    omega
  rw [List.getD_append _ _ _ _ (by simp [List.length_zip]; omega),
    zip_slots_getD slots1 rows1 p hlen1 hp1, List.getD_eq_getElem _ _ hp1]

theorem conSlots_two_block_second (s : OptState) (slots1 slots2 : List Nat)
    (rows1 rows2 : List Row) (q : Query)
    (hcon : s.constraints = slots1.zip rows1 ++ slots2.zip rows2)
    (hlen1 : slots1.length = rows1.length) (hlen2 : slots2.length = rows2.length)
    (hm1 : ∀ row ∈ rows1, rowMatchesAll row q = false)
    (hm2 : ∀ row ∈ rows2, rowMatchesAll row q = true) :
    conSlots s q = slots2 := by
  unfold conSlots conRows
  rw [hcon, List.map_append, map_snd_zip_eq _ _ hlen1, map_snd_zip_eq _ _ hlen2,
    getIndex_two_block_second rows1 rows2 q hm1 hm2]
  apply List.ext_getElem (by simp [hlen2])
  intro p h1 h2
  rw [List.getElem_map, List.getElem_map, List.getElem_range]
  have hp2 : p < slots2.length := by
    simp at h1
    omega
  have hzl : (slots1.zip rows1).length = rows1.length := by
    simp [List.length_zip, hlen1]
  rw [List.getD_append_right _ _ _ _ (by rw [hzl]; exact Nat.le_add_right _ _)]
  rw [hzl, Nat.add_sub_cancel_left, zip_slots_getD slots2 rows2 p hlen2 hp2,
    List.getD_eq_getElem _ _ hp2]

theorem conSlots_one_block (s : OptState) (slots : List Nat) (rows : List Row) (q : Query)
    (hcon : s.constraints = slots.zip rows)
    (hlen : slots.length = rows.length)
    (hmatch : ∀ row ∈ rows, rowMatchesAll row q = true) :
    conSlots s q = slots := by
  have hcon2 : s.constraints = slots.zip rows ++ ([] : List Nat).zip ([] : List Row) := by
    simpa using hcon
  exact conSlots_two_block_first s slots [] rows [] q hcon2 hlen rfl hmatch (by simp)

theorem conSlots_eqResult_ge (c r : Nat) (M : Mat) (v : Vec) :
    conSlots (eqResultState c r M v)
      [("name", [KeyVal.str "eq"]), ("constraint_type", [KeyVal.str "==>="])]
      = rangeFrom 0 r := by
  refine conSlots_two_block_first _ (rangeFrom 0 r) (rangeFrom r r)
    (eqRowsCT r (KeyVal.str "==>=")) (eqRowsCT r (KeyVal.str "==<=")) _ rfl ?_ ?_ ?_ ?_
  · simp [rangeFrom_length, eqRowsCT]
  · simp [rangeFrom_length, eqRowsCT]
  · intro row hrow
    simp only [eqRowsCT, List.mem_map] at hrow
    obtain ⟨i, hi, rfl⟩ := hrow
    simp [rowMatchesAll, rowMatchesOne, List.lookup, keyMem]
  · intro row hrow
    simp only [eqRowsCT, List.mem_map] at hrow
    obtain ⟨i, hi, rfl⟩ := hrow
    simp [rowMatchesAll, rowMatchesOne, List.lookup, keyMem]

theorem conSlots_eqResult_le (c r : Nat) (M : Mat) (v : Vec) :
    conSlots (eqResultState c r M v)
      [("name", [KeyVal.str "eq"]), ("constraint_type", [KeyVal.str "==<="])]
      = rangeFrom r r := by
  refine conSlots_two_block_second _ (rangeFrom 0 r) (rangeFrom r r)
    (eqRowsCT r (KeyVal.str "==>=")) (eqRowsCT r (KeyVal.str "==<=")) _ rfl ?_ ?_ ?_ ?_
  · simp [rangeFrom_length, eqRowsCT]
  · simp [rangeFrom_length, eqRowsCT]
  · intro row hrow
    simp only [eqRowsCT, List.mem_map] at hrow
    obtain ⟨i, hi, rfl⟩ := hrow
    simp [rowMatchesAll, rowMatchesOne, List.lookup, keyMem]
  · intro row hrow
    simp only [eqRowsCT, List.mem_map] at hrow
    obtain ⟨i, hi, rfl⟩ := hrow
    simp [rowMatchesAll, rowMatchesOne, List.lookup, keyMem]

theorem typesOfName_eqResult_mem (c r : Nat) (M : Mat) (v : Vec) (hrpos : 0 < r) :
    "==>=" ∈ typesOfName (eqResultState c r M v) "eq" := by
  unfold typesOfName conRows
  apply List.mem_filterMap.mpr
  refine ⟨[("name", KeyVal.str "eq"), ("t", KeyVal.num 0),
    ("constraint_type", KeyVal.str "==>=")], ?_, by simp [List.lookup]⟩
  apply List.mem_filter.mpr
  constructor
  · show _ ∈ (eqResultState c r M v).constraints.map (fun pr => pr.2)
    apply List.mem_map.mpr
    refine ⟨(0, [("name", KeyVal.str "eq"), ("t", KeyVal.num 0),
      ("constraint_type", KeyVal.str "==>=")]), ?_, rfl⟩
    show _ ∈ (rangeFrom 0 r).zip (eqRowsCT r (KeyVal.str "==>=")) ++ _
    apply List.mem_append_left
    have hlenz : 0 < ((rangeFrom 0 r).zip (eqRowsCT r (KeyVal.str "==>="))).length := by
      simp [List.length_zip, rangeFrom_length, eqRowsCT]
      omega
    have hlen1 : 0 < (rangeFrom 0 r).length := by
      simp [rangeFrom_length]
      omega
    have hlen2 : 0 < (eqRowsCT r (KeyVal.str "==>=")).length := by
      simp [eqRowsCT]
      omega
    have h0 : (0, ([("name", KeyVal.str "eq"), ("t", KeyVal.num 0),
        ("constraint_type", KeyVal.str "==>=")] : Row))
        = ((rangeFrom 0 r).zip (eqRowsCT r (KeyVal.str "==>=")))[0] := by
      rw [List.getElem_zip]
      have h1 : (rangeFrom 0 r)[0] = 0 := by
        simp [rangeFrom]
      have h2 : (eqRowsCT r (KeyVal.str "==>="))[0]
          = [("name", KeyVal.str "eq"), ("t", KeyVal.num 0),
             ("constraint_type", KeyVal.str "==>=")] := by
        simp [eqRowsCT]
      rw [h1, h2]
    rw [h0]
    exact List.getElem_mem _
  · simp [List.lookup]

theorem getDualsFor_eqResult (c r : Nat) (M : Mat) (v : Vec) (mu : Nat → ℚ) (hrpos : 0 < r) :
    getDualsFor (eqResultState c r M v) mu "eq"
      = some ((List.range r).map (fun i => 0 - mu i - mu (r + i))) := by
  unfold getDualsFor
  have htypes : (typesOfName (eqResultState c r M v) "eq").any
      (fun t => strContains t "==") = true := by
    apply List.any_eq_true.mpr
    exact ⟨"==>=", typesOfName_eqResult_mem c r M v hrpos, by decide⟩
  simp only [htypes, if_true]
  rw [conSlots_eqResult_ge, conSlots_eqResult_le, rangeFrom_zero]
  rw [show rangeFrom r r = (List.range r).map (fun k => r + k) from rfl]
  rw [List.zipWith_map_right, List.zipWith_same]

theorem ineqDeclare_eval (c r : Nat) (M : Mat) (v : Vec) (geq : Bool)
    (hr : M.rowCount = r) (hrect : ∀ row ∈ M, row.length = c) (hv : v.length = r)
    (hrpos : 0 < r) (hcpos : 0 < c) :
    defineIneq (simpleState c) [⟨1, Coef.mat M, queryAllVars c⟩] geq
        [⟨1, Coef.vec v, none⟩] (some (ineqKeys r)) none
      = .ok (if geq then geResultState c r M v else leResultState c r M v) := by
  have hlook : (ineqKeys r).lookup "constraint_type" = none := by
    simp [ineqKeys, List.lookup]
  have hks : cartProd (setKeyCT (ineqKeys r) (if geq then ">=" else "<="))
      = ineqRowsCT r (KeyVal.str (if geq then ">=" else "<=")) := by
    rw [setKeyCT_appends _ _ hlook]
    show cartProd [("name", [KeyVal.str "ineq"]), ("t", (List.range r).map KeyVal.num),
      ("constraint_type", [KeyVal.str (if geq then ">=" else "<=")])] = _
    rw [cartProd_name_t_ct]
    rfl
  rw [defineIneq_simple_eval (simpleState c) geq M v r c _ _ rfl hr hrect hv hrpos hcpos hks
    (by simp [ineqRowsCT])]
  cases geq
  · simp [simpleState, emptyProblem, leResultState]
  · simp [simpleState, emptyProblem, geResultState]

theorem processVar_ok (s : OptState) (opf : ℚ) (bc : Option (List String))
    (ci? : Option (List Nat)) (t : VarTerm) (ci : List Nat) (e : AEntry)
    (h : processVar s opf bc ci? t = .ok (ci, e)) :
    (∃ cdim, varTermDims s bc t = some (ci.length, cdim))
    ∧ (∀ ci0, ci? = some ci0 → ci = ci0) := by
  unfold processVar at h
  unfold varTermDims
  cases hviB : (getIndexList s.variablesList t.keys).isEmpty with
  | true =>
    simp only [hviB] at h
    simp at h
  | false =>
    simp only [hviB, Bool.false_eq_true, if_false] at h ⊢
    cases hbl : broadcastLenVar bc t.keys with
    | error e2 =>
      rw [hbl] at h
      simp at h
    | ok blen =>
      rw [hbl] at h
      cases hrc : resolveCoef s.parameters t.value with
      | error e2 =>
        rw [hrc] at h
        simp at h
      | ok pv =>
        obtain ⟨pname, v⟩ := pv
        rw [hrc] at h
        simp only at h
        by_cases hsh :
            ((expandA v (getIndexList s.variablesList t.keys).length blen).rowCount,
             Mat.colCount (expandA v (getIndexList s.variablesList t.keys).length blen))
            = ((ci?.getD (rangeFrom s.constraintsLen
                (expandA v (getIndexList s.variablesList t.keys).length blen).rowCount)).length,
               (getIndexList s.variablesList t.keys).length)
        · rw [if_pos hsh] at h
          have hci : ci = ci?.getD (rangeFrom s.constraintsLen
              (expandA v (getIndexList s.variablesList t.keys).length blen).rowCount) := by
            cases pname with
            | none =>
              simp only [Except.ok.injEq, Prod.mk.injEq] at h
              exact h.1.symm
            | some p =>
              simp only [Except.ok.injEq, Prod.mk.injEq] at h
              exact h.1.symm
          constructor
          · refine ⟨Mat.colCount (expandA v (getIndexList s.variablesList t.keys).length blen),
              ?_⟩
            have hrows : (expandA v (getIndexList s.variablesList t.keys).length blen).rowCount
                = ci.length := by
              rw [hci]
              exact (Prod.mk.injEq _ _ _ _).mp hsh |>.1
            show some ((expandA v (getIndexList s.variablesList t.keys).length blen).rowCount,
                Mat.colCount (expandA v (getIndexList s.variablesList t.keys).length blen))
              = some (ci.length,
                Mat.colCount (expandA v (getIndexList s.variablesList t.keys).length blen))
            rw [hrows]
          · intro ci0 hci0
            rw [hci, hci0]
            rfl
        · rw [if_neg hsh] at h
          simp at h

theorem processVars_ok (s : OptState) (opf : ℚ) (bc : Option (List String)) :
    ∀ (ts : List VarTerm) (ci? ciOut : Option (List Nat)) (es : List AEntry),
    processVars s opf bc ci? ts = .ok (ciOut, es) →
    (∀ ci0, ci? = some ci0 → ciOut = some ci0)
    ∧ (ts ≠ [] → ∃ ci1, ciOut = some ci1)
    ∧ (∀ ci1, ciOut = some ci1 →
        ∀ t ∈ ts, (varTermDims s bc t).map Prod.fst = some ci1.length) := by
  intro ts
  induction ts with
  | nil =>
    intro ci? ciOut es h
    unfold processVars at h
    simp only [Except.ok.injEq, Prod.mk.injEq] at h
    refine ⟨fun ci0 hci0 => by rw [← h.1, hci0], fun hne => absurd rfl hne, ?_⟩
    intro ci1 _ t ht
    simp at ht
  | cons t rest ih =>
    intro ci? ciOut es h
    unfold processVars at h
    cases hpv : processVar s opf bc ci? t with
    | error e2 =>
      rw [hpv] at h
      simp at h
    | ok pr =>
      obtain ⟨ci, e⟩ := pr
      rw [hpv] at h
      simp only at h
      cases hrest : processVars s opf bc (some ci) rest with
      | error e2 =>
        rw [hrest] at h
        simp at h
      | ok pr2 =>
        obtain ⟨ciOut2, es2⟩ := pr2
        rw [hrest] at h
        simp only [Except.ok.injEq, Prod.mk.injEq] at h
        obtain ⟨hOut, _⟩ := h
        obtain ⟨⟨cdim, hdims⟩, hsome⟩ := processVar_ok s opf bc ci? t ci e hpv
        obtain ⟨ihsome, _, ihall⟩ := ih (some ci) ciOut2 es2 hrest
        have hOutCi : ciOut = some ci := by rw [← hOut]; exact ihsome ci rfl
        refine ⟨?_, fun _ => ⟨ci, hOutCi⟩, ?_⟩
        · intro ci0 hci0
          rw [hOutCi, hsome ci0 hci0]
        · intro ci1 hci1 t2 ht2
          have hci1ci : ci1 = ci := by
            rw [hOutCi] at hci1
            exact (Option.some.injEq _ _).mp hci1.symm
          subst hci1ci
          rcases List.mem_cons.mp ht2 with rfl | hmem
          · rw [hdims]
            rfl
          · exact ihall ci1 (by rw [hOut, hOutCi]) t2 hmem

theorem expandConst_len_inv (v : PVal) (ci0 : List Nat) (blen : Nat) :
    expandConst v (some ci0) blen = expandConst v (some (List.range ci0.length)) blen := by
  cases v with
  | scalar q => simp [expandConst]
  | vec w => rfl
  | mat m => rfl

theorem processConst_ok (s : OptState) (opf : ℚ) (bc : Option (List String))
    (ci0 : List Nat) (t : ConstTerm) (ci : List Nat) (e : BEntry)
    (h : processConst s opf bc (some ci0) t = .ok (ci, e)) :
    ci = ci0 ∧ constTermLen s bc ci0.length t = some ci0.length := by
  unfold processConst at h
  unfold constTermLen
  cases hrc : resolveCoef s.parameters t.value with
  | error e2 =>
    rw [hrc] at h
    simp at h
  | ok pv =>
    obtain ⟨pname, v⟩ := pv
    rw [hrc] at h
    simp only at h
    cases hec : expandConst v (some ci0) (broadcastLenConst bc t.keys) with
    | error e2 =>
      rw [hec] at h
      simp at h
    | ok w =>
      rw [hec] at h
      simp only [Option.getD_some] at h
      by_cases hlen : w.length = ci0.length
      · rw [if_pos hlen] at h
        have hci : ci = ci0 := by
          cases pname with
          | none =>
            simp only [Except.ok.injEq, Prod.mk.injEq] at h
            exact h.1.symm
          | some p =>
            simp only [Except.ok.injEq, Prod.mk.injEq] at h
            exact h.1.symm
        refine ⟨hci, ?_⟩
        show (match expandConst v (some (List.range ci0.length))
            (broadcastLenConst bc t.keys) with
          | Except.error _ => none
          | Except.ok w => some w.length) = some ci0.length
        rw [← expandConst_len_inv v ci0 (broadcastLenConst bc t.keys), hec]
        simp [hlen]
      · rw [if_neg hlen] at h
        simp at h

theorem processConsts_ok (s : OptState) (opf : ℚ) (bc : Option (List String)) :
    ∀ (ts : List ConstTerm) (ci0 : List Nat) (ciOut : Option (List Nat)) (es : List BEntry),
    processConsts s opf bc (some ci0) ts = .ok (ciOut, es) →
    ciOut = some ci0
    ∧ (∀ t ∈ ts, constTermLen s bc ci0.length t = some ci0.length) := by
  intro ts
  induction ts with
  | nil =>
    intro ci0 ciOut es h
    unfold processConsts at h
    simp only [Except.ok.injEq, Prod.mk.injEq] at h
    exact ⟨h.1.symm, fun t ht => by simp at ht⟩
  | cons t rest ih =>
    intro ci0 ciOut es h
    unfold processConsts at h
    cases hpc : processConst s opf bc (some ci0) t with
    | error e2 =>
      rw [hpc] at h
      simp at h
    | ok pr =>
      obtain ⟨ci, e⟩ := pr
      rw [hpc] at h
      simp only at h
      cases hrest : processConsts s opf bc (some ci) rest with
      | error e2 =>
        rw [hrest] at h
        simp at h
      | ok pr2 =>
        obtain ⟨ciOut2, es2⟩ := pr2
        rw [hrest] at h
        simp only [Except.ok.injEq, Prod.mk.injEq] at h
        obtain ⟨hOut, _⟩ := h
        obtain ⟨hci, hlen⟩ := processConst_ok s opf bc ci0 t ci e hpc
        subst hci
        obtain ⟨ihout, ihall⟩ := ih ci ciOut2 es2 hrest
        refine ⟨by rw [← hOut, ihout], ?_⟩
        intro t2 ht2
        rcases List.mem_cons.mp ht2 with rfl | hmem
        · exact hlen
        · exact ihall t2 hmem

theorem conRows_leResult (c r : Nat) (M : Mat) (v : Vec) :
    conRows (leResultState c r M v) = ineqRowsCT r (KeyVal.str "<=") := by
  unfold conRows leResultState
  exact map_snd_zip_eq _ _ (by simp [rangeFrom_length, ineqRowsCT])

theorem conRows_geResult (c r : Nat) (M : Mat) (v : Vec) :
    conRows (geResultState c r M v) = ineqRowsCT r (KeyVal.str ">=") := by
  unfold conRows geResultState
  exact map_snd_zip_eq _ _ (by simp [rangeFrom_length, ineqRowsCT])

theorem typesOfName_ineqRows_char (s : OptState) (r : Nat) (ct : String)
    (hrows : conRows s = ineqRowsCT r (KeyVal.str ct)) :
    ∀ t ∈ typesOfName s "ineq", t = ct := by
  intro t ht
  unfold typesOfName at ht
  rw [hrows] at ht
  obtain ⟨row, hrowmem, hlook⟩ := List.mem_filterMap.mp ht
  have hrow2 := (List.mem_filter.mp hrowmem).1
  simp only [ineqRowsCT, List.mem_map] at hrow2
  obtain ⟨i, hi, rfl⟩ := hrow2
  simp [List.lookup] at hlook
  exact hlook.symm

theorem typesOfName_ineqRows_mem (s : OptState) (r : Nat) (ct : String)
    (hrows : conRows s = ineqRowsCT r (KeyVal.str ct)) (hrpos : 0 < r) :
    ct ∈ typesOfName s "ineq" := by
  unfold typesOfName
  rw [hrows]
  apply List.mem_filterMap.mpr
  refine ⟨[("name", KeyVal.str "ineq"), ("t", KeyVal.num 0),
    ("constraint_type", KeyVal.str ct)], ?_, by simp [List.lookup]⟩
  apply List.mem_filter.mpr
  constructor
  · simp only [ineqRowsCT, List.mem_map]
    exact ⟨0, by simpa using hrpos, rfl⟩
  · simp [List.lookup]

theorem getDualsFor_leResult (c r : Nat) (M : Mat) (v : Vec) (mu : Nat → ℚ) (hrpos : 0 < r) :
    getDualsFor (leResultState c r M v) mu "ineq"
      = some ((List.range r).map (fun i => 0 - mu i)) := by
  unfold getDualsFor
  have hchar := typesOfName_ineqRows_char _ r "<=" (conRows_leResult c r M v)
  have h1 : (typesOfName (leResultState c r M v) "ineq").any
      (fun t => strContains t "==") = false := by
    rw [List.any_eq_false]
    intro t ht
    rw [hchar t ht]
    decide
  have h2 : (typesOfName (leResultState c r M v) "ineq").any
      (fun t => strContains t ">=") = false := by
    rw [List.any_eq_false]
    intro t ht
    rw [hchar t ht]
    decide
  have h3 : (typesOfName (leResultState c r M v) "ineq").any
      (fun t => strContains t "<=") = true := by
    apply List.any_eq_true.mpr
    exact ⟨"<=", typesOfName_ineqRows_mem _ r "<=" (conRows_leResult c r M v) hrpos, by decide⟩
  simp only [h1, h2, h3, Bool.false_eq_true, if_false, if_true]
  have hslots : conSlots (leResultState c r M v)
      [("name", [KeyVal.str "ineq"]), ("constraint_type", [KeyVal.str "<="])]
      = rangeFrom 0 r := by
    refine conSlots_one_block _ (rangeFrom 0 r) (ineqRowsCT r (KeyVal.str "<=")) _ rfl ?_ ?_
    · simp [rangeFrom_length, ineqRowsCT]
    · intro row hrow
      simp only [ineqRowsCT, List.mem_map] at hrow
      obtain ⟨i, hi, rfl⟩ := hrow
      simp [rowMatchesAll, rowMatchesOne, List.lookup, keyMem]
  rw [hslots, rangeFrom_zero]

theorem getDualsFor_geResult (c r : Nat) (M : Mat) (v : Vec) (mu : Nat → ℚ) (hrpos : 0 < r) :
    getDualsFor (geResultState c r M v) mu "ineq"
      = some ((List.range r).map (fun i => 0 - mu i)) := by
  unfold getDualsFor
  have hchar := typesOfName_ineqRows_char _ r ">=" (conRows_geResult c r M v)
  have h1 : (typesOfName (geResultState c r M v) "ineq").any
      (fun t => strContains t "==") = false := by
    rw [List.any_eq_false]
    intro t ht
    rw [hchar t ht]
    decide
  have h2 : (typesOfName (geResultState c r M v) "ineq").any
      (fun t => strContains t ">=") = true := by
    apply List.any_eq_true.mpr
    exact ⟨">=", typesOfName_ineqRows_mem _ r ">=" (conRows_geResult c r M v) hrpos, by decide⟩
  simp only [h1, h2, Bool.false_eq_true, if_false, if_true]
  have hslots : conSlots (geResultState c r M v)
      [("name", [KeyVal.str "ineq"]), ("constraint_type", [KeyVal.str ">="])]
      = rangeFrom 0 r := by
    refine conSlots_one_block _ (rangeFrom 0 r) (ineqRowsCT r (KeyVal.str ">=")) _ rfl ?_ ?_
    · simp [rangeFrom_length, ineqRowsCT]
    · intro row hrow
      simp only [ineqRowsCT, List.mem_map] at hrow
      obtain ⟨i, hi, rfl⟩ := hrow
      simp [rowMatchesAll, rowMatchesOne, List.lookup, keyMem]
  rw [hslots, rangeFrom_zero]

theorem leDeclare_eval (c r : Nat) (M : Mat) (v : Vec)
    (hr : M.rowCount = r) (hrect : ∀ row ∈ M, row.length = c) (hv : v.length = r)
    (hrpos : 0 < r) (hcpos : 0 < c) :
    leDeclare c r M v = .ok (leResultState c r M v) := by
  unfold leDeclare defineConstraintLowLevel
  rw [if_neg (by simp), if_neg (by simp [ineqKeys, List.lookup]),
    if_neg (by decide), if_neg (by decide), if_pos rfl]
  exact ineqDeclare_eval c r M v false hr hrect hv hrpos hcpos

theorem geDeclare_eval (c r : Nat) (M : Mat) (v : Vec)
    (hr : M.rowCount = r) (hrect : ∀ row ∈ M, row.length = c) (hv : v.length = r)
    (hrpos : 0 < r) (hcpos : 0 < c) :
    geDeclare c r M v = .ok (geResultState c r M v) := by
  unfold geDeclare defineConstraintLowLevel
  rw [if_neg (by simp), if_neg (by simp [ineqKeys, List.lookup]),
    if_neg (by decide), if_pos rfl]
  exact ineqDeclare_eval c r M v true hr hrect hv hrpos hcpos

/-! ## Claim theorems (first batch) -/

/-- C1: the spec claims that redefining a parameter with a value of a
different shape fails with a shape-mismatch error and does not overwrite the
stored value.  The source constructs the `ValueError` but never raises it
(missing `raise` in `define_parameter`), so every redefinition — including a
shape-changing one, exhibited here at shapes `(2,)` versus `(3,)` — returns
normally and overwrites the stored value. -/
theorem C1_shape_mismatch_silently_overwrites :
    (∀ (s : OptState) (name : String) (value : PVal),
      (defineParameter s name value).parameters.lookup name = some value)
    ∧ (defineParameter (defineParameter emptyProblem "p" (PVal.vec [1, 2])) "p"
        (PVal.vec [1, 2, 3])).parameters.lookup "p" = some (PVal.vec [1, 2, 3])
    ∧ PVal.shape (PVal.vec [1, 2]) ≠ PVal.shape (PVal.vec [1, 2, 3]) := by
  refine ⟨fun s name value => lookup_setAssoc s.parameters name value, by rfl, by decide⟩

/-- C2: the spec claims that a `define_constraint` call with an operator in
first or last position, or with multiple operators, fails at declaration time
and adds nothing.  The source constructs those `ValueError`s without raising
them, so all three calls below succeed and register a constraint row; only the
no-operator case actually raises. -/
theorem C2_misplaced_operator_not_rejected :
    ((defineConstraint sSingleVar
        [CElem.strE "<=", CElem.tup "variable" (Coef.scalar 1) (some [("name", [KeyVal.str "x"])])]
        none none).map (fun s2 => s2.constraintsLen) = .ok 1)
    ∧ ((defineConstraint sSingleVar
        [CElem.tup "variable" (Coef.scalar 1) (some [("name", [KeyVal.str "x"])]), CElem.strE "<="]
        none none).map (fun s2 => s2.constraintsLen) = .ok 1)
    ∧ ((defineConstraint sSingleVar
        [CElem.tup "variable" (Coef.scalar 1) (some [("name", [KeyVal.str "x"])]),
         CElem.strE "<=", CElem.strE ">=", CElem.tup "constant" (Coef.scalar 5) none]
        none none).map (fun s2 => s2.constraintsLen) = .ok 1)
    ∧ defineConstraint sSingleVar
        [CElem.tup "variable" (Coef.scalar 1) (some [("name", [KeyVal.str "x"])])]
        none none = .error "Cannot define constraint without operator" := by
  exact ⟨rfl, rfl, rfl, rfl⟩

/-- C3: an equality constraint `M x == v` is registered as exactly two
inequality row blocks — constraint types `==>=` on row slots `0..r-1` and
`==<=` on row slots `r..2r-1` — and the stacked inequality system the two
blocks contribute to the compiled `A` matrix and `b` vector is equivalent to
`M x == v` (the `==>=` block encodes `-M x <= -v`, the `==<=` block encodes
`M x <= v`). -/
theorem C3_equality_decomposition (r c : Nat) (M : Mat) (v : Vec)
    (hr : M.rowCount = r) (hrect : ∀ row ∈ M, row.length = c) (hv : v.length = r)
    (hrpos : 0 < r) (hcpos : 0 < c) :
    ∃ s2, eqDeclare c r M v = .ok s2
      ∧ s2.constraints.map (fun pr => (pr.1, pr.2.lookup "constraint_type"))
          = (List.range r).map (fun i => (i, some (KeyVal.str "==>=")))
            ++ (List.range r).map (fun i => (r + i, some (KeyVal.str "==<=")))
      ∧ (∀ x : Nat → ℚ,
          (∀ i, i < 2 * r → rowDotA s2 c i x ≤ getBVector s2 i)
            ↔ (∀ i, i < r → matRowDot M c i x = v.getD i 0)) := by
  refine ⟨eqResultState c r M v, eqDeclare_eval c r M v hr hrect hv hrpos hcpos, ?_, ?_⟩
  · simp only [eqResultState, List.map_append]
    congr 1
    · simp [rangeFrom, eqRowsCT, ← List.map_prod_left_eq_zip, List.map_map, List.lookup]
    · simp [rangeFrom, eqRowsCT, List.zip_map', List.map_map, List.lookup]
  · intro x
    have hA1 : ∀ i, i < r → rowDotA (eqResultState c r M v) c i x = -(matRowDot M c i x) := by
      intro i hi
      unfold rowDotA matRowDot
      rw [← Finset.sum_neg_distrib]
      apply Finset.sum_congr rfl
      intro j hj
      rw [Finset.mem_range] at hj
      rw [eqResult_aEntry, if_pos ⟨hi, hj⟩, if_neg (by omega)]
      ring
    have hA2 : ∀ i, i < r →
        rowDotA (eqResultState c r M v) c (r + i) x = matRowDot M c i x := by
      intro i hi
      unfold rowDotA matRowDot
      apply Finset.sum_congr rfl
      intro j hj
      rw [Finset.mem_range] at hj
      rw [eqResult_aEntry, if_neg (by omega), if_pos ⟨by omega, by omega, hj⟩,
        show r + i - r = i by omega]
      ring
    have hB1 : ∀ i, i < r → getBVector (eqResultState c r M v) i = -(v.getD i 0) := by
      intro i hi
      rw [eqResult_bEntry, if_pos hi, if_neg (by omega)]
      ring
    have hB2 : ∀ i, i < r → getBVector (eqResultState c r M v) (r + i) = v.getD i 0 := by
      intro i hi
      rw [eqResult_bEntry, if_neg (by omega), if_pos ⟨by omega, by omega⟩,
        show r + i - r = i by omega]
      ring
    constructor
    · intro h i hi
      have hge := h i (by omega)
      rw [hA1 i hi, hB1 i hi] at hge
      have hle := h (r + i) (by omega)
      rw [hA2 i hi, hB2 i hi] at hle
      exact le_antisymm hle (by linarith)
    · intro h i hi
      by_cases hir : i < r
      · rw [hA1 i hir, hB1 i hir, h i hir]
      · obtain ⟨k, rfl⟩ : ∃ k, i = r + k := ⟨i - r, by omega⟩
        have hk : k < r := by omega
        rw [hA2 k hk, hB2 k hk, h k hk]

/-- C3 witness: the equality-decomposition theorem instantiated at the
concrete constraint `I x == (3, 4)` over two variables. -/
theorem C3_equality_decomposition_witness :
    Mat.rowCount [[1, 0], [0, 1]] = 2
    ∧ (∀ row ∈ ([[1, 0], [0, 1]] : Mat), row.length = 2)
    ∧ List.length ([3, 4] : Vec) = 2
    ∧ 0 < 2
    ∧ (∃ s2, eqDeclare 2 2 [[1, 0], [0, 1]] [3, 4] = .ok s2
        ∧ s2.constraints.map (fun pr => (pr.1, pr.2.lookup "constraint_type"))
            = (List.range 2).map (fun i => (i, some (KeyVal.str "==>=")))
              ++ (List.range 2).map (fun i => (2 + i, some (KeyVal.str "==<=")))
        ∧ (∀ x : Nat → ℚ,
            (∀ i, i < 2 * 2 → rowDotA s2 2 i x ≤ getBVector s2 i)
              ↔ (∀ i, i < 2 → matRowDot [[1, 0], [0, 1]] 2 i x
                  = List.getD ([3, 4] : Vec) i 0))) :=
  ⟨by decide, by decide, by decide, by decide,
    C3_equality_decomposition 2 2 [[1, 0], [0, 1]] [3, 4] (by decide) (by decide) (by decide)
      (by decide) (by decide)⟩

/-- C4: on the state produced by declaring the equality constraint `M x == v`
under name `eq`, `get_duals` reports, for every stored dual vector `mu`, the
per-row value `-(mu[==>= slot] + mu[==<= slot])`; on the states produced by
declaring the pure `<=` or `>=` constraint under name `ineq`, it reports
`-mu[slot]`. -/
theorem C4_dual_reconstruction (r c : Nat) (M : Mat) (v : Vec) (mu : Nat → ℚ)
    (hr : M.rowCount = r) (hrect : ∀ row ∈ M, row.length = c) (hv : v.length = r)
    (hrpos : 0 < r) (hcpos : 0 < c) :
    (∃ s2, eqDeclare c r M v = .ok s2
      ∧ getDualsFor s2 mu "eq"
          = some ((List.range r).map (fun i => 0 - mu i - mu (r + i))))
    ∧ (∃ s3, leDeclare c r M v = .ok s3
      ∧ getDualsFor s3 mu "ineq" = some ((List.range r).map (fun i => 0 - mu i)))
    ∧ (∃ s4, geDeclare c r M v = .ok s4
      ∧ getDualsFor s4 mu "ineq" = some ((List.range r).map (fun i => 0 - mu i))) := by
  refine ⟨⟨eqResultState c r M v, eqDeclare_eval c r M v hr hrect hv hrpos hcpos,
      getDualsFor_eqResult c r M v mu hrpos⟩,
    ⟨leResultState c r M v, leDeclare_eval c r M v hr hrect hv hrpos hcpos,
      getDualsFor_leResult c r M v mu hrpos⟩,
    ⟨geResultState c r M v, geDeclare_eval c r M v hr hrect hv hrpos hcpos,
      getDualsFor_geResult c r M v mu hrpos⟩⟩

/-- C4 witness: the dual-reconstruction theorem instantiated at the concrete
constraint `I x == (3, 4)` (respectively `<=` / `>=`) and the dual vector
`mu i = i`. -/
theorem C4_dual_reconstruction_witness :
    Mat.rowCount [[1, 0], [0, 1]] = 2
    ∧ (∀ row ∈ ([[1, 0], [0, 1]] : Mat), row.length = 2)
    ∧ List.length ([3, 4] : Vec) = 2
    ∧ 0 < 2
    ∧ ((∃ s2, eqDeclare 2 2 [[1, 0], [0, 1]] [3, 4] = .ok s2
        ∧ getDualsFor s2 (fun i => (i : ℚ)) "eq"
            = some ((List.range 2).map (fun (i : Nat) => 0 - (i : ℚ) - (((2 + i : Nat)) : ℚ))))
      ∧ (∃ s3, leDeclare 2 2 [[1, 0], [0, 1]] [3, 4] = .ok s3
        ∧ getDualsFor s3 (fun i => (i : ℚ)) "ineq"
            = some ((List.range 2).map (fun (i : Nat) => 0 - (i : ℚ))))
      ∧ (∃ s4, geDeclare 2 2 [[1, 0], [0, 1]] [3, 4] = .ok s4
        ∧ getDualsFor s4 (fun i => (i : ℚ)) "ineq"
            = some ((List.range 2).map (fun (i : Nat) => 0 - (i : ℚ))))) :=
  ⟨by decide, by decide, by decide, by decide,
    C4_dual_reconstruction 2 2 [[1, 0], [0, 1]] [3, 4] (fun i => (i : ℚ)) (by decide)
      (by decide) (by decide) (by decide) (by decide)⟩

/-- C5: declaring an identical `(name, keys)` variable row set twice leaves
the registry exactly as after the first declaration (the whole state is
unchanged), the registry is duplicate-free so each declared row occupies
exactly one slot, and `get_index` answers every query identically after the
first and after the second declaration. -/
theorem C5_idempotent_variable_declaration (s : OptState) (name : String)
    (keys : List (String × List KeyVal)) :
    defineVariable (defineVariable s name keys) name keys = defineVariable s name keys
    ∧ (defineVariable s name keys).variablesList.Nodup
    ∧ (∀ row ∈ buildVarRows name keys,
        @List.count Row instBEqOfDecidableEq row (defineVariable s name keys).variablesList = 1)
    ∧ (∀ q : Query,
        getIndexList (defineVariable (defineVariable s name keys) name keys).variablesList q
          = getIndexList (defineVariable s name keys).variablesList q) := by
  have hmemnew : ∀ row ∈ buildVarRows name keys,
      row ∈ (defineVariable s name keys).variablesList := by
    intro row hrow
    show row ∈ dedupFirst (s.variablesList ++ buildVarRows name keys)
    exact (mem_dedupFirst _ _).mpr (List.mem_append_right _ hrow)
  have heq : defineVariable (defineVariable s name keys) name keys
      = defineVariable s name keys := by
    apply updateVariablesList_self
    show dedupFirst ((defineVariable s name keys).variablesList ++ buildVarRows name keys)
        = (defineVariable s name keys).variablesList
    rw [dedupFirst_append_of_subset _ _ hmemnew]
    show dedupFirst (dedupFirst (s.variablesList ++ buildVarRows name keys))
        = dedupFirst (s.variablesList ++ buildVarRows name keys)
    exact dedupFirst_idem _
  refine ⟨heq, nodup_dedupFirst _, ?_, fun q => by rw [heq]⟩
  intro row hrow
  exact List.count_eq_one_of_mem (nodup_dedupFirst _) (hmemnew row hrow)

/-- C7: replacing the parameter store by any store that agrees on every name
except `q` (a mutation of parameter `q`) and recompiling changes at most the
`A` / `b` / `c` entries contributed by terms that reference `q`: every entry
position outside the index footprint of every `q`-referencing accumulator
entry compiles to the same value under both stores, while `q`-referencing
entries re-resolve from the current store on every compile call. -/
theorem C7_parameter_mutation_frame (s : OptState) (P2 : List (String × PVal)) (q : String)
    (hagree : ∀ n, n ≠ q → s.parameters.lookup n = P2.lookup n) :
    (∀ i j, (∀ e ∈ s.aDict, e.refsParam q = true → i ∉ e.ci ∨ j ∉ e.vi) →
      getAMatrix s i j = getAMatrix { s with parameters := P2 } i j)
    ∧ (∀ i, (∀ e ∈ s.bDict, e.refsParam q = true → i ∉ e.ci) →
      getBVector s i = getBVector { s with parameters := P2 } i)
    ∧ (∀ j, (∀ e ∈ s.cDict, e.refsParam q = true → j ∉ e.vi) →
      getCVector s j = getCVector { s with parameters := P2 } j) := by
  refine ⟨?_, ?_, ?_⟩
  · intro i j hout
    show (s.aDict.map (aContrib s.parameters i j)).sum
        = (s.aDict.map (aContrib P2 i j)).sum
    apply congrArg List.sum
    apply List.map_congr_left
    intro e he
    by_cases href : e.refsParam q = true
    · rw [aContrib_zero_of_not_mem s.parameters i j e (hout e he href),
        aContrib_zero_of_not_mem P2 i j e (hout e he href)]
    · have hres : resolveA s.parameters e.vi.length e.val = resolveA P2 e.vi.length e.val := by
        cases hval : e.val with
        | lit m => rfl
        | par f p blen =>
          have hpq : p ≠ q := by
            intro hcontra
            apply href
            simp [AEntry.refsParam, hval, hcontra]
          unfold resolveA lookupParam
          show matScale f (expandA ((List.lookup p s.parameters).getD (PVal.scalar 0))
              e.vi.length blen)
            = matScale f (expandA ((List.lookup p P2).getD (PVal.scalar 0)) e.vi.length blen)
          rw [hagree p hpq]
      unfold aContrib
      rw [hres]
  · intro i hout
    show (s.bDict.map (bContrib s.parameters i)).sum = (s.bDict.map (bContrib P2 i)).sum
    apply congrArg List.sum
    apply List.map_congr_left
    intro e he
    by_cases href : e.refsParam q = true
    · rw [bContrib_zero_of_not_mem s.parameters i e (hout e he href),
        bContrib_zero_of_not_mem P2 i e (hout e he href)]
    · have hres : resolveB s.parameters e.ci.length e.val = resolveB P2 e.ci.length e.val := by
        cases hval : e.val with
        | lit w => rfl
        | par f p blen =>
          have hpq : p ≠ q := by
            intro hcontra
            apply href
            simp [BEntry.refsParam, hval, hcontra]
          unfold resolveB lookupParam
          show vecScale f (expandBParam ((List.lookup p s.parameters).getD (PVal.scalar 0))
              e.ci.length blen)
            = vecScale f (expandBParam ((List.lookup p P2).getD (PVal.scalar 0)) e.ci.length blen)
          rw [hagree p hpq]
      unfold bContrib
      rw [hres]
  · intro j hout
    show (s.cDict.map (cContrib s.parameters j)).sum = (s.cDict.map (cContrib P2 j)).sum
    apply congrArg List.sum
    apply List.map_congr_left
    intro e he
    by_cases href : e.refsParam q = true
    · rw [cContrib_zero_of_not_mem s.parameters j e (hout e he href),
        cContrib_zero_of_not_mem P2 j e (hout e he href)]
    · have hres : resolveC s.parameters e.vi.length e.val = resolveC P2 e.vi.length e.val := by
        cases hval : e.val with
        | lit w => rfl
        | par p blen =>
          have hpq : p ≠ q := by
            intro hcontra
            apply href
            simp [CEntry.refsParam, hval, hcontra]
          unfold resolveC lookupParam
          show expandCParam ((List.lookup p s.parameters).getD (PVal.scalar 0)) e.vi.length blen
            = expandCParam ((List.lookup p P2).getD (PVal.scalar 0)) e.vi.length blen
          rw [hagree p hpq]
      unfold cContrib
      rw [hres]

/-- C7 witness: the frame theorem instantiated at a concrete problem with one
literal and one `p`-referencing entry per accumulator, mutating `p` from `1`
to `7`. -/
theorem C7_parameter_mutation_frame_witness :
    (∀ n : String, n ≠ "p" → frameDemoState.parameters.lookup n = frameDemoParams.lookup n)
    ∧ ((∀ i j, (∀ e ∈ frameDemoState.aDict, e.refsParam "p" = true → i ∉ e.ci ∨ j ∉ e.vi) →
        getAMatrix frameDemoState i j
          = getAMatrix { frameDemoState with parameters := frameDemoParams } i j)
      ∧ (∀ i, (∀ e ∈ frameDemoState.bDict, e.refsParam "p" = true → i ∉ e.ci) →
        getBVector frameDemoState i
          = getBVector { frameDemoState with parameters := frameDemoParams } i)
      ∧ (∀ j, (∀ e ∈ frameDemoState.cDict, e.refsParam "p" = true → j ∉ e.vi) →
        getCVector frameDemoState j
          = getCVector { frameDemoState with parameters := frameDemoParams } j)) := by
  have hagree : ∀ n : String, n ≠ "p" →
      frameDemoState.parameters.lookup n = frameDemoParams.lookup n := by
    intro n hn
    simp [frameDemoState, frameDemoParams, emptyProblem, List.lookup,
      beq_eq_false_iff_ne.mpr hn]
  exact ⟨hagree, C7_parameter_mutation_frame frameDemoState frameDemoParams "p" hagree⟩

/-- C8 counterexample: the claim asserts that for every backend a suboptimal
termination raises no error and still stores results; in the CVXPY backend the
suboptimal status (`optimal_inaccurate`) raises and stores nothing. -/
theorem C8_cvxpy_suboptimal_raises :
    solveCvxpyModel CvxpyStatus.optimalInaccurate
      = .error "CVXPY exited with non-optimal solution status" := by
  rfl

/-- C8 (amended): in the Gurobi backend, infeasible / infeasible-or-unbounded
/ unbounded termination raises a fatal error with no results, and suboptimal
termination logs a warning while still storing results; in the CVXPY backend
every status other than optimal — including the suboptimal one — raises with
no results. -/
theorem C8_amended_status_handling :
    solveGurobiModel GurobiStatus.infeasible
        = .error "Gurobi exited with non-optimal solution status"
    ∧ solveGurobiModel GurobiStatus.infOrUnbd
        = .error "Gurobi exited with non-optimal solution status"
    ∧ solveGurobiModel GurobiStatus.unbounded
        = .error "Gurobi exited with non-optimal solution status"
    ∧ solveGurobiModel GurobiStatus.suboptimal
        = .ok { warned := true, resultsStored := true }
    ∧ solveGurobiModel GurobiStatus.optimal
        = .ok { warned := false, resultsStored := true }
    ∧ (∀ st : CvxpyStatus, solveCvxpyModel st =
        if st = CvxpyStatus.optimal then .ok { warned := false, resultsStored := true }
        else .error "CVXPY exited with non-optimal solution status") := by
  refine ⟨rfl, rfl, rfl, rfl, rfl, fun st => ?_⟩
  cases st <;> rfl

/-- C9: when an inequality declaration succeeds, the first variable term's
expanded coefficient shape determined the constraint row count: every variable
term in the call has the same expanded row dimension `r0`, every constant term
casts to length `r0`, and the call allocates exactly `r0` fresh row slots.
Contrapositively, a subsequent term whose row dimension differs cannot be part
of a successful call — the source raises the dimension-mismatch `ValueError`
at declaration time. -/
theorem C9_first_term_determines_rows (s : OptState) (vars : List VarTerm) (geq : Bool)
    (consts : List ConstTerm) (keys? : Option Query) (bc : Option (List String))
    (s2 : OptState) (hne : vars ≠ [])
    (hok : defineIneq s vars geq consts keys? bc = .ok s2) :
    ∃ r0, (∀ t ∈ vars, (varTermDims s bc t).map Prod.fst = some r0)
      ∧ (∀ ct ∈ consts, constTermLen s bc r0 ct = some r0)
      ∧ s2.constraintsLen = s.constraintsLen + r0 := by
  unfold defineIneq at hok
  cases hpv : processVars s (if geq then -1 else 1) bc none vars with
  | error e2 =>
    simp only [hpv] at hok
    simp at hok
  | ok pr =>
    obtain ⟨ciOut, aE⟩ := pr
    simp only [hpv] at hok
    obtain ⟨_, hne2, hall⟩ := processVars_ok s _ bc vars none ciOut aE hpv
    obtain ⟨ci1, hci1⟩ := hne2 hne
    subst hci1
    cases hpc : processConsts s (if geq then -1 else 1) bc (some ci1) consts with
    | error e2 =>
      rw [hpc] at hok
      simp at hok
    | ok pr2 =>
      obtain ⟨ciOut2, bE⟩ := pr2
      rw [hpc] at hok
      simp only at hok
      obtain ⟨hOut2, hclen⟩ := processConsts_ok s _ bc consts ci1 ciOut2 bE hpc
      subst hOut2
      refine ⟨ci1.length, hall ci1 rfl, hclen, ?_⟩
      cases keys? with
      | none =>
        simp only [Except.ok.injEq] at hok
        rw [← hok]
      | some ks =>
        simp only at hok
        by_cases hkl : (cartProd (setKeyCT ks (if geq then ">=" else "<="))).length
            = ci1.length
        · rw [if_pos hkl] at hok
          simp only [Except.ok.injEq] at hok
          rw [← hok]
        · rw [if_neg hkl] at hok
          simp at hok

/-- C9 witness: the theorem instantiated at the concrete successful
declaration `(2) x <= (5)` on a one-variable problem. -/
theorem C9_first_term_determines_rows_witness :
    c9Vars ≠ []
    ∧ defineIneq (simpleState 1) c9Vars false c9Consts (some (ineqKeys 1)) none
        = .ok (leResultState 1 1 [[2]] [5])
    ∧ (∃ r0, (∀ t ∈ c9Vars, (varTermDims (simpleState 1) none t).map Prod.fst = some r0)
        ∧ (∀ ct ∈ c9Consts, constTermLen (simpleState 1) none r0 ct = some r0)
        ∧ (leResultState 1 1 [[2]] [5]).constraintsLen
            = (simpleState 1).constraintsLen + r0) := by
  have hok : defineIneq (simpleState 1) c9Vars false c9Consts (some (ineqKeys 1)) none
      = .ok (leResultState 1 1 [[2]] [5]) := by
    have h := ineqDeclare_eval 1 1 [[2]] [5] false (by decide) (by decide) (by decide)
      (by decide) (by decide)
    simpa [c9Vars, c9Consts] using h
  exact ⟨by decide, hok,
    C9_first_term_determines_rows (simpleState 1) c9Vars false c9Consts
      (some (ineqKeys 1)) none (leResultState 1 1 [[2]] [5]) (by decide) hok⟩

/-- C10: the claim (matching the source's own comments) says a variable term
whose keys contain an empty selection is ignored and the call completes.  The
skip is implemented with `continue` inside the inner loop over key values, a
no-op, so the term falls through to `get_index(..., raise_empty_index_error=
True)` and the call raises — in both the constraint and the objective path. -/
theorem C10_empty_key_value_raises :
    defineConstraintLowLevel sTimestep
        [⟨1, Coef.scalar 1, [("name", [KeyVal.str "x"]), ("timestep", [])]⟩] "<="
        [⟨1, Coef.scalar 0, none⟩] none none = .error "Empty index returned"
    ∧ defineObjectiveVars sTimestep none
        [⟨Coef.scalar 1, [("name", [KeyVal.str "x"]), ("timestep", [])]⟩]
      = .error "Empty index returned" := by
  exact ⟨rfl, rfl⟩

theorem joinRep_length {α : Type} (v : List α) (k : Nat) :
    (joinRep v k).length = k * v.length := by
  induction k with
  | zero => simp [joinRep]
  | succ k ih =>
    unfold joinRep at ih ⊢
    rw [List.replicate_succ, List.flatten_cons, List.length_append, ih, Nat.succ_mul]
    omega

theorem joinRep_getD (v : Vec) (r k i : Nat) (hv : v.length = r) (hi : i < k * r) :
    (joinRep v k).getD i 0 = v.getD (i % r) 0 := by
  induction k generalizing i with
  | zero => omega
  | succ k ih =>
    unfold joinRep at ih ⊢
    rw [List.replicate_succ, List.flatten_cons]
    by_cases hir : i < r
    · rw [List.getD_append _ _ _ _ (by omega), Nat.mod_eq_of_lt hir]
    · rw [List.getD_append_right]
      · rw [hv]
        have hmod : i % r = (i - r) % r := Nat.mod_eq_sub_mod (by omega)
        rw [hmod]
        exact ih (i - r) (by
          have hsm : (k + 1) * r = k * r + r := Nat.succ_mul k r
          omega)
      · omega

theorem expandA_mat_rowCount (M : Mat) (r n T : Nat) (hr : M.rowCount = r)
    (hT : 0 < T) : (expandA (.mat M) n T).rowCount = T * r := by
  show (if T > 1 then blockDiagRep M T else M).rowCount = T * r
  by_cases h1 : T > 1
  · rw [if_pos h1]
    unfold blockDiagRep
    rw [matOfFn_rowCount, hr]
  · have hT1 : T = 1 := by omega
    rw [if_neg h1, hT1, hr, Nat.one_mul]

theorem expandA_mat_colCount (M : Mat) (r c n T : Nat) (hr : M.rowCount = r)
    (hc : M.colCount = c) (hT : 0 < T) (hrp : 0 < r) :
    Mat.colCount (expandA (.mat M) n T) = T * c := by
  show Mat.colCount (if T > 1 then blockDiagRep M T else M) = T * c
  by_cases h1 : T > 1
  · rw [if_pos h1]
    unfold blockDiagRep
    rw [matOfFn_colCount _ _ _ (by rw [hr]; exact Nat.mul_pos (by omega) hrp), hc]
  · have hT1 : T = 1 := by omega
    rw [if_neg h1, hT1, hc, Nat.one_mul]

theorem expandA_mat_entry (M : Mat) (r c n T i j : Nat) (hr : M.rowCount = r)
    (hc : M.colCount = c) (hi : i < T * r) (hj : j < T * c) :
    (expandA (.mat M) n T).entry i j
      = if i / r = j / c then M.entry (i % r) (j % c) else 0 := by
  have hTpos : 0 < T := by
    rcases Nat.eq_zero_or_pos T with h0 | h0
    · subst h0
      rw [Nat.zero_mul] at hi
      omega
    · exact h0
  show (if T > 1 then blockDiagRep M T else M).entry i j
      = if i / r = j / c then M.entry (i % r) (j % c) else 0
  by_cases h1 : T > 1
  · rw [if_pos h1]
    unfold blockDiagRep
    rw [matOfFn_entry _ _ _ i j (by rw [hr]; exact hi) (by rw [hc]; exact hj), hr, hc]
  · have hT1 : T = 1 := by omega
    subst hT1
    rw [if_neg h1]
    rw [Nat.one_mul] at hi hj
    have hdi : i / r = 0 := Nat.div_eq_of_lt hi
    have hdj : j / c = 0 := Nat.div_eq_of_lt hj
    rw [hdi, hdj, if_pos rfl, Nat.mod_eq_of_lt hi, Nat.mod_eq_of_lt hj]

theorem processVar_broadcast_eval (T r c : Nat) (M : Mat) (s : OptState)
    (hvl : s.variablesList = varsTimed T c)
    (hr : M.rowCount = r) (hc : Mat.colCount M = c)
    (hT : 0 < T) (hrp : 0 < r) (hcp : 0 < c) :
    processVar s 1 (some ["timestep"]) none ⟨1, Coef.mat M, queryTimedAll T c⟩
      = .ok (rangeFrom s.constraintsLen (T * r),
          ⟨rangeFrom s.constraintsLen (T * r), List.range (T * c),
            .lit (matScale 1 (expandA (.mat M) (T * c) T))⟩) := by
  have hemp : (List.range (T * c)).isEmpty = false := by
    simp [List.isEmpty_iff, List.range_eq_nil]
    have hp := Nat.mul_pos hT hcp
    omega
  have hbl : broadcastLenVar (some ["timestep"]) (queryTimedAll T c) = .ok T := by
    simp [broadcastLenVar, queryTimedAll, List.lookup]
  simp [processVar, hvl, getIndex_timedAll, hemp, hbl, resolveCoef,
    expandA_mat_rowCount M r (T * c) T hr hT,
    expandA_mat_colCount M r c (T * c) T hr hc hT hrp, rangeFrom_length]

theorem processConst_broadcast_eval (T r L : Nat) (v : Vec) (s : OptState)
    (hv : v.length = r) (hT : 0 < T) :
    processConst s 1 (some ["timestep"]) (some (rangeFrom L (T * r)))
        ⟨1, Coef.vec v, some [("timestep", (List.range T).map KeyVal.num)]⟩
      = .ok (rangeFrom L (T * r), ⟨rangeFrom L (T * r),
          .lit (vecScale 1 (if T > 1 then joinRep v T else v))⟩) := by
  have hbl : broadcastLenConst (some ["timestep"])
      (some [("timestep", (List.range T).map KeyVal.num)]) = T := by
    simp [broadcastLenConst, List.lookup]
  by_cases hT1 : T > 1
  · simp [processConst, resolveCoef, hbl, expandConst, hT1, joinRep_length, hv,
      rangeFrom_length]
  · have hTe : T = 1 := by omega
    subst hTe
    simp [processConst, resolveCoef, hbl, expandConst, hv, rangeFrom_length]

theorem defineIneq_broadcast_eval (T r c : Nat) (M : Mat) (v : Vec) (s : OptState)
    (hvl : s.variablesList = varsTimed T c)
    (hr : M.rowCount = r) (hc : Mat.colCount M = c) (hv : v.length = r)
    (hT : 0 < T) (hrp : 0 < r) (hcp : 0 < c) :
    defineIneq s [⟨1, Coef.mat M, queryTimedAll T c⟩] false
        [⟨1, Coef.vec v, some [("timestep", (List.range T).map KeyVal.num)]⟩] none
        (some ["timestep"])
      = .ok { s with
          aDict := s.aDict ++ [⟨rangeFrom s.constraintsLen (T * r), List.range (T * c),
            .lit (matScale 1 (expandA (.mat M) (T * c) T))⟩],
          bDict := s.bDict ++ [⟨rangeFrom s.constraintsLen (T * r),
            .lit (vecScale 1 (if T > 1 then joinRep v T else v))⟩],
          constraintsLen := s.constraintsLen + T * r } := by
  have hpv := processVar_broadcast_eval T r c M s hvl hr hc hT hrp hcp
  have hpc := processConst_broadcast_eval T r s.constraintsLen v s hv hT
  simp only [defineIneq, show (if (false : Bool) then (-1 : ℚ) else 1) = 1 from rfl,
    processVars, hpv, processConsts, hpc, rangeFrom_length]

theorem broadcastDeclare_eval (T r c : Nat) (M : Mat) (v : Vec)
    (hr : M.rowCount = r) (hc : Mat.colCount M = c) (hv : v.length = r)
    (hT : 0 < T) (hrp : 0 < r) (hcp : 0 < c) :
    broadcastDeclare T c M v = .ok (broadcastResultState T r c M v) := by
  unfold broadcastDeclare defineConstraintLowLevel
  rw [if_neg (by simp), if_neg (by decide), if_neg (by decide), if_neg (by decide),
    if_pos rfl]
  rw [defineIneq_broadcast_eval T r c M v (timedState T c) rfl hr hc hv hT hrp hcp]
  congr 1
  simp [timedState, emptyProblem, broadcastResultState]

theorem processVar_perT_eval (T r c t : Nat) (M : Mat) (s : OptState) (ht : t < T)
    (hvl : s.variablesList = varsTimed T c)
    (hr : M.rowCount = r) (hc : Mat.colCount M = c) (_hrp : 0 < r) (hcp : 0 < c) :
    processVar s 1 none none ⟨1, Coef.mat M, queryTimedAt t c⟩
      = .ok (rangeFrom s.constraintsLen r,
          ⟨rangeFrom s.constraintsLen r, rangeFrom (t * c) c, .lit (matScale 1 M)⟩) := by
  have hemp : (rangeFrom (t * c) c).isEmpty = false := by
    simp [rangeFrom, List.isEmpty_iff, List.range_eq_nil]
    omega
  simp [processVar, hvl, getIndex_timedAt T c t ht hcp, hemp, broadcastLenVar, resolveCoef,
    expandA, hr, hc, rangeFrom_length]

theorem processConst_perT_eval (r L t : Nat) (v : Vec) (s : OptState)
    (hv : v.length = r) :
    processConst s 1 none (some (rangeFrom L r))
        ⟨1, Coef.vec v, some [("timestep", [KeyVal.num t])]⟩
      = .ok (rangeFrom L r, ⟨rangeFrom L r, .lit (vecScale 1 v)⟩) := by
  simp [processConst, resolveCoef, broadcastLenConst, expandConst, hv, rangeFrom_length]

theorem perStep_eval (T r c t : Nat) (M : Mat) (v : Vec) (s : OptState) (ht : t < T)
    (hvl : s.variablesList = varsTimed T c)
    (hr : M.rowCount = r) (hc : Mat.colCount M = c) (hv : v.length = r)
    (hrp : 0 < r) (hcp : 0 < c) :
    defineConstraintLowLevel s [⟨1, Coef.mat M, queryTimedAt t c⟩] "<="
        [⟨1, Coef.vec v, some [("timestep", [KeyVal.num t])]⟩] none none
      = .ok { s with
          aDict := s.aDict ++ [⟨rangeFrom s.constraintsLen r, rangeFrom (t * c) c,
            .lit (matScale 1 M)⟩],
          bDict := s.bDict ++ [⟨rangeFrom s.constraintsLen r, .lit (vecScale 1 v)⟩],
          constraintsLen := s.constraintsLen + r } := by
  unfold defineConstraintLowLevel
  rw [if_neg (by simp), if_neg (by decide), if_neg (by decide), if_neg (by decide),
    if_pos rfl]
  have hpv := processVar_perT_eval T r c t M s ht hvl hr hc hrp hcp
  have hpc := processConst_perT_eval r s.constraintsLen t v s hv
  simp only [defineIneq, show (if (false : Bool) then (-1 : ℚ) else 1) = 1 from rfl,
    processVars, hpv, processConsts, hpc, rangeFrom_length]

theorem declareSteps_perT (T r c : Nat) (M : Mat) (v : Vec)
    (hr : M.rowCount = r) (hc : Mat.colCount M = c) (hv : v.length = r)
    (hrp : 0 < r) (hcp : 0 < c) :
    ∀ k, k ≤ T →
      declareSteps (timedState T c) (fun t s =>
        defineConstraintLowLevel s [⟨1, Coef.mat M, queryTimedAt t c⟩] "<="
          [⟨1, Coef.vec v, some [("timestep", [KeyVal.num t])]⟩] none none) k
        = .ok (perTState T r c M v k) := by
  intro k
  induction k with
  | zero =>
    intro _
    simp [declareSteps, timedState, emptyProblem, perTState]
  | succ k ih =>
    intro hk
    simp only [declareSteps, ih (by omega)]
    rw [perStep_eval T r c k M v (perTState T r c M v k) (by omega) rfl hr hc hv hrp hcp]
    congr 1
    simp [perTState, List.range_succ, Nat.succ_mul]

theorem perTimestepDeclare_eval (T r c : Nat) (M : Mat) (v : Vec)
    (hr : M.rowCount = r) (hc : Mat.colCount M = c) (hv : v.length = r)
    (hrp : 0 < r) (hcp : 0 < c) :
    perTimestepDeclare T c M v = .ok (perTState T r c M v T) := by
  unfold perTimestepDeclare
  exact declareSteps_perT T r c M v hr hc hv hrp hcp T (Nat.le_refl T)

theorem sum_double_ite (n a b : Nat) (x : ℚ) :
    (∑ t ∈ Finset.range n, if a = t ∧ b = t then x else 0)
      = if a = b ∧ a < n then x else 0 := by
  by_cases hab : a = b
  · subst hab
    have hterm : ∀ t ∈ Finset.range n,
        (if a = t ∧ a = t then x else 0) = if a = t then x else 0 := by
      intro t _
      by_cases h : a = t <;> simp [h]
    rw [Finset.sum_congr rfl hterm, Finset.sum_ite_eq]
    simp
  · rw [if_neg (by omega)]
    apply Finset.sum_eq_zero
    intro t _
    rw [if_neg (by omega)]

theorem sum_single_ite (n a : Nat) (x : ℚ) :
    (∑ t ∈ Finset.range n, if a = t then x else 0) = if a < n then x else 0 := by
  rw [Finset.sum_ite_eq]
  simp

theorem getA_broadcast (T r c : Nat) (M : Mat) (v : Vec) (i j : Nat)
    (hr : M.rowCount = r) (hc : Mat.colCount M = c) :
    getAMatrix (broadcastResultState T r c M v) i j
      = if i < T * r ∧ j < T * c then
          (if i / r = j / c then M.entry (i % r) (j % c) else 0) else 0 := by
  unfold getAMatrix broadcastResultState
  simp only [List.map_cons, List.map_nil, List.sum_cons, List.sum_nil, add_zero]
  rw [← rangeFrom_zero (T * c), aContrib_lit_range]
  simp only [Nat.zero_le, true_and, zero_add, Nat.sub_zero, matScale_entry, one_mul]
  by_cases hij : i < T * r ∧ j < T * c
  · rw [if_pos hij, if_pos hij]
    exact expandA_mat_entry M r c (T * c) T i j hr hc hij.1 hij.2
  · rw [if_neg hij, if_neg hij]

theorem getA_perT (T r c : Nat) (M : Mat) (v : Vec) (i j : Nat)
    (hrp : 0 < r) (hcp : 0 < c) :
    getAMatrix (perTState T r c M v T) i j
      = if i < T * r ∧ j < T * c then
          (if i / r = j / c then M.entry (i % r) (j % c) else 0) else 0 := by
  unfold getAMatrix perTState
  rw [List.map_map, sum_map_range]
  have hterm : ∀ t ∈ Finset.range T,
      (aContrib [] i j ∘ fun t =>
        (⟨rangeFrom (t * r) r, rangeFrom (t * c) c, .lit (matScale 1 M)⟩ : AEntry)) t
      = if i / r = t ∧ j / c = t then M.entry (i % r) (j % c) else 0 := by
    intro t _
    simp only [Function.comp]
    rw [aContrib_lit_range]
    by_cases hcond : t * r ≤ i ∧ i < t * r + r ∧ t * c ≤ j ∧ j < t * c + c
    · obtain ⟨h1, h2, h3, h4⟩ := hcond
      have hdi : i / r = t := Nat.div_eq_of_lt_le h1 (by rw [Nat.succ_mul]; omega)
      have hdj : j / c = t := Nat.div_eq_of_lt_le h3 (by rw [Nat.succ_mul]; omega)
      have hmi : i - t * r = i % r := by
        have hd := Nat.div_add_mod' i r
        rw [hdi] at hd
        omega
      have hmj : j - t * c = j % c := by
        have hd := Nat.div_add_mod' j c
        rw [hdj] at hd
        omega
      rw [if_pos ⟨h1, h2, h3, h4⟩, if_pos ⟨hdi, hdj⟩, hmi, hmj, matScale_entry, one_mul]
    · rw [if_neg hcond, if_neg ?_]
      rintro ⟨hdi, hdj⟩
      apply hcond
      have hdi' := Nat.div_add_mod' i r
      have hdj' := Nat.div_add_mod' j c
      rw [hdi] at hdi'
      rw [hdj] at hdj'
      have hm1 : i % r < r := Nat.mod_lt _ hrp
      have hm2 : j % c < c := Nat.mod_lt _ hcp
      refine ⟨?_, ?_, ?_, ?_⟩ <;> omega
  rw [Finset.sum_congr rfl hterm, sum_double_ite T (i / r) (j / c)]
  by_cases hd : i / r = j / c
  · by_cases hi' : i < T * r
    · have hiT : i / r < T := (Nat.div_lt_iff_lt_mul hrp).mpr hi'
      have hjT : j < T * c := (Nat.div_lt_iff_lt_mul hcp).mp (hd ▸ hiT)
      rw [if_pos ⟨hd, hiT⟩, if_pos ⟨hi', hjT⟩, if_pos hd]
    · have hiT : ¬ i / r < T := fun h => hi' ((Nat.div_lt_iff_lt_mul hrp).mp h)
      rw [if_neg (by tauto), if_neg (by tauto)]
  · rw [if_neg (by tauto)]
    by_cases hij : i < T * r ∧ j < T * c
    · rw [if_pos hij, if_neg hd]
    · rw [if_neg hij]

theorem getB_broadcast (T r c : Nat) (M : Mat) (v : Vec) (i : Nat)
    (hv : v.length = r) :
    getBVector (broadcastResultState T r c M v) i
      = if i < T * r then v.getD (i % r) 0 else 0 := by
  unfold getBVector broadcastResultState
  simp only [List.map_cons, List.map_nil, List.sum_cons, List.sum_nil, add_zero]
  rw [bContrib_lit_range]
  simp only [Nat.zero_le, true_and, zero_add, Nat.sub_zero, vecScale_getD, one_mul]
  by_cases hi : i < T * r
  · rw [if_pos hi, if_pos hi]
    by_cases hT1 : T > 1
    · rw [if_pos hT1]
      exact joinRep_getD v r T i hv hi
    · have hTpos : 0 < T := by
        rcases Nat.eq_zero_or_pos T with h0 | h0
        · subst h0
          rw [Nat.zero_mul] at hi
          omega
        · exact h0
      have hTe : T = 1 := by omega
      subst hTe
      rw [Nat.one_mul] at hi
      rw [if_neg hT1, Nat.mod_eq_of_lt hi]
  · rw [if_neg hi, if_neg hi]

theorem getB_perT (T r c : Nat) (M : Mat) (v : Vec) (i : Nat) (hrp : 0 < r) :
    getBVector (perTState T r c M v T) i
      = if i < T * r then v.getD (i % r) 0 else 0 := by
  unfold getBVector perTState
  rw [List.map_map, sum_map_range]
  have hterm : ∀ t ∈ Finset.range T,
      (bContrib [] i ∘ fun t =>
        (⟨rangeFrom (t * r) r, .lit (vecScale 1 v)⟩ : BEntry)) t
      = if i / r = t then v.getD (i % r) 0 else 0 := by
    intro t _
    simp only [Function.comp]
    rw [bContrib_lit_range]
    by_cases hcond : t * r ≤ i ∧ i < t * r + r
    · obtain ⟨h1, h2⟩ := hcond
      have hdi : i / r = t := Nat.div_eq_of_lt_le h1 (by rw [Nat.succ_mul]; omega)
      have hmi : i - t * r = i % r := by
        have hd := Nat.div_add_mod' i r
        rw [hdi] at hd
        omega
      rw [if_pos ⟨h1, h2⟩, if_pos hdi, hmi, vecScale_getD, one_mul]
    · rw [if_neg hcond, if_neg ?_]
      intro hdi
      apply hcond
      have hdi' := Nat.div_add_mod' i r
      rw [hdi] at hdi'
      have hm1 : i % r < r := Nat.mod_lt _ hrp
      exact ⟨by omega, by omega⟩
  rw [Finset.sum_congr rfl hterm, sum_single_ite T (i / r)]
  by_cases hi : i < T * r
  · rw [if_pos ((Nat.div_lt_iff_lt_mul hrp).mpr hi), if_pos hi]
  · rw [if_neg (fun h => hi ((Nat.div_lt_iff_lt_mul hrp).mp h)), if_neg hi]

/-- C6: for a coefficient block identical across `T` timesteps, one declaration
with `broadcast='timestep'` (the block tiled block-diagonally by
`sp.block_diag`, constants concatenated by `np.concatenate`) and `T` separate
declarations with explicit per-timestep keys both succeed, allocate the same
number of constraint rows, and produce identical compiled A-matrix and
b-vector entries everywhere. -/
theorem C6_broadcast_equivalence (T r c : Nat) (M : Mat) (v : Vec)
    (hr : M.rowCount = r) (hc : Mat.colCount M = c) (hv : v.length = r)
    (hT : 0 < T) (hrp : 0 < r) (hcp : 0 < c) :
    ∃ sB sP, broadcastDeclare T c M v = .ok sB ∧ perTimestepDeclare T c M v = .ok sP
      ∧ sB.constraintsLen = sP.constraintsLen
      ∧ (∀ i j, getAMatrix sB i j = getAMatrix sP i j)
      ∧ (∀ i, getBVector sB i = getBVector sP i) := by
  refine ⟨broadcastResultState T r c M v, perTState T r c M v T,
    broadcastDeclare_eval T r c M v hr hc hv hT hrp hcp,
    perTimestepDeclare_eval T r c M v hr hc hv hrp hcp, rfl, ?_, ?_⟩
  · intro i j
    rw [getA_broadcast T r c M v i j hr hc, getA_perT T r c M v i j hrp hcp]
  · intro i
    rw [getB_broadcast T r c M v i hv, getB_perT T r c M v i hrp]

/-- Witness for C6 at `T = 2` timesteps, a `1 × 1` block `[[2]]` and constant
`[3]`. -/
theorem C6_broadcast_equivalence_witness :
    ∃ sB sP, broadcastDeclare 2 1 [[2]] [3] = .ok sB
      ∧ perTimestepDeclare 2 1 [[2]] [3] = .ok sP
      ∧ sB.constraintsLen = sP.constraintsLen
      ∧ (∀ i j, getAMatrix sB i j = getAMatrix sP i j)
      ∧ (∀ i, getBVector sB i = getBVector sP i) :=
  C6_broadcast_equivalence 2 1 1 [[2]] [3] (by decide) (by decide) (by decide)
    (by decide) (by decide) (by decide)

end Mesmo

